import Mathlib

/-!
# Thyella: the purge decision engine

A shallow embedding of `thyella/types.go`, `thyella/thyella.go` and the purge
part of `thyella/k8s.go` (repository takashabe/thyella) together with theorems
about the node and pool predicates, the zone-balanced selection, the purge of
one group, the entry point `Thyella.Purge` and the cordon, drain, delete
sequence of `K8sClient.Purge` with its rollback.

Modelling conventions.

* Go `int` and `time.Duration` values are modelled in `Int`.  Ages are only
  compared, and the counter of ready nodes is bounded by a slice length.  The
  single arithmetic expression that can overflow is
  `np.MinNodeCount * len(np.ZoneURLs)` in `IsMinimumNodes`; Go's `int` is taken
  as the 64 bit integer and the product wraps around as it does in Go
  (`wrapInt`).
* `*Node` values held by a pool are modelled as `Node` values; a possibly nil
  `*Node` (the result of a selection) is an `Option Node`.
* A Go `map` is modelled as an association list with distinct keys.  The order
  in which `range` visits a map is not specified by the language, so every
  function that ranges over a map takes the visiting order as an argument
  (`MapOrder`), which may be any permutation of the entries.
* The collaborators `KaasProvider` and `K8sAccessor` are interfaces.  They are
  modelled as state passing functions over an arbitrary state type, so that a
  collaborator may answer differently on every call.  Every call is recorded in
  a trace.  Logging is not modelled.
* Go `error` values are modelled by their message.
* The cluster API behind `K8sClient.clientset` is a library outside the
  repository.  It is modelled as a record of state passing requests
  (`Clientset`) over an arbitrary cluster state, with the few fields of its
  objects that `k8s.go` reads.  The run of a `K8sClient` method records the
  requests it sends and every entry into `applyCordonOrUncordon`.
-/

namespace ThyellaModel

/-! ## Data model (`types.go`) -/

/-- Node represents node (`types.go`, lines 9-16). -/
structure Node where
  Name : String
  NodePool : String
  Zone : String
  Age : Int
  Ready : Bool
deriving DecidableEq, Repr

/-- The constant `statusNodePoolStable` (`types.go`, line 18). -/
def statusNodePoolStable : String := "RUNNING"

/-- NodePool represents node-pool (`types.go`, lines 20-29). -/
structure NodePool where
  Name : String
  Autoscale : Bool
  MinNodeCount : Int
  Preemptible : Bool
  Status : String
  ZoneURLs : List String
  Nodes : List Node
deriving DecidableEq, Repr

/-- The method `relateNodes` (`types.go`, lines 31-39): the nodes of the
inventory that carry the pool's name, in inventory order. -/
def NodePool.relateNodes (np : NodePool) (nodes : List Node) : List Node :=
  nodes.foldl (fun ret n => if n.NodePool = np.Name then ret ++ [n] else ret) []

/-- One iteration of the loops at `types.go` lines 44-48 and 73-77:
`if max == nil || max.Age < n.Age { max = n }`. -/
def maxAgeStep (max : Option Node) (n : Node) : Option Node :=
  match max with
  | none => some n
  | some m => if m.Age < n.Age then some n else some m

/-- The loop `for _, n := range ns { if max == nil || max.Age < n.Age { max = n } }`
started from `var max *Node` (nil). -/
def maxAgeLoop (ns : List Node) : Option Node :=
  ns.foldl maxAgeStep none

/-- The method `GetMaxAgeNode` (`types.go`, lines 41-50); the result is the pair
`(max, max != nil)`. -/
def NodePool.GetMaxAgeNode (np : NodePool) : Option Node × Bool :=
  let max := maxAgeLoop np.Nodes
  (max, max.isSome)

/-- A Go `map[string][]*Node`: association list with distinct keys. -/
abbrev ZoneMap := List (String × List Node)

/-- The map update of `types.go` lines 57-62 for one node `n`:
`list, ok := m[n.Zone]`; if the key is absent the entry `[n]` is created,
otherwise the entry becomes `append(list, n)`. -/
def zoneInsert (m : ZoneMap) (n : Node) : ZoneMap :=
  match m.lookup n.Zone with
  | none => m ++ [(n.Zone, [n])]
  | some _ => m.map (fun e => if e.1 = n.Zone then (e.1, e.2 ++ [n]) else e)

/-- The first loop of `GetMaxAgeNodeWithBalance` (`types.go`, lines 55-63):
the map `nodeEachZone`. -/
def nodeEachZone (nodes : List Node) : ZoneMap :=
  nodes.foldl zoneInsert []

/-- The order in which `range` visits the entries of a map: any permutation of
the entries. -/
structure MapOrder where
  visit : ZoneMap → ZoneMap
  perm : ∀ m, (visit m).Perm m

/-- The visiting order that follows the association list. -/
def MapOrder.forward : MapOrder := ⟨fun m => m, fun _ => List.Perm.refl _⟩

/-- The visiting order that follows the association list backwards. -/
def MapOrder.backward : MapOrder := ⟨fun m => m.reverse, fun m => List.reverse_perm m⟩

/-- One iteration of the loop at `types.go` lines 66-70:
`if len(maxNumZone) < len(ns) { maxNumZone = ns }`. -/
def maxNumStep (maxNumZone : List Node) (e : String × List Node) : List Node :=
  if maxNumZone.length < e.2.length then e.2 else maxNumZone

/-- The second loop of `GetMaxAgeNodeWithBalance` (`types.go`, lines 65-70) over
the entries in visiting order, started from the empty slice. -/
def maxNumZone (visited : ZoneMap) : List Node :=
  visited.foldl maxNumStep []

/-- The method `GetMaxAgeNodeWithBalance` (`types.go`, lines 52-79); the result
is the pair `(maxAge, maxAge != nil)`. -/
def NodePool.GetMaxAgeNodeWithBalance (ord : MapOrder) (np : NodePool) : Option Node × Bool :=
  let maxAge := maxAgeLoop (maxNumZone (ord.visit (nodeEachZone np.Nodes)))
  (maxAge, maxAge.isSome)

/-- The counting loop of `IsMinimumNodes` (`types.go`, lines 83-88). -/
def readyCnt (nodes : List Node) : Int :=
  nodes.foldl (fun cnt n => if n.Ready then cnt + 1 else cnt) 0

/-- The value that Go's 64 bit `int` holds for the integer `x`: `x` reduced to
the range from `-2^63` to `2^63 - 1` modulo `2^64` (two's complement wrap
around; `9223372036854775808` is `2^63`, `18446744073709551616` is `2^64`). -/
def wrapInt (x : Int) : Int :=
  (x + 9223372036854775808) % 18446744073709551616 - 9223372036854775808

/-- The method `IsMinimumNodes` (`types.go`, lines 81-91).  The product on
line 89 is a product of Go `int` values and wraps around on overflow. -/
def NodePool.IsMinimumNodes (np : NodePool) : Bool :=
  let minNodeWholeZone := wrapInt (np.MinNodeCount * (np.ZoneURLs.length : Int))
  decide (readyCnt np.Nodes ≤ minNodeWholeZone)

/-- The loop of `AllGreen` (`types.go`, lines 98-103): false at the first node
that is not ready, true when the list is exhausted. -/
def allReadyLoop : List Node → Bool
  | [] => true
  | n :: ns => if !n.Ready then false else allReadyLoop ns

/-- The method `AllGreen` (`types.go`, lines 93-104). -/
def NodePool.AllGreen (np : NodePool) : Bool :=
  if np.Status ≠ statusNodePoolStable then false
  else allReadyLoop np.Nodes

/-- NodePoolGroup represents node-pool group (`types.go`, lines 106-110). -/
structure NodePoolGroup where
  NodePools : List NodePool
deriving DecidableEq, Repr

/-- The loop of `GetPoolWithPreemptible` (`types.go`, lines 114-119). -/
def poolWithPreemptibleLoop (preemptible : Bool) : List NodePool → Option NodePool × Bool
  | [] => (none, false)
  | n :: ns => if n.Preemptible = preemptible then (some n, true)
               else poolWithPreemptibleLoop preemptible ns

/-- The method `GetPoolWithPreemptible` (`types.go`, lines 112-120). -/
def NodePoolGroup.GetPoolWithPreemptible (npg : NodePoolGroup) (preemptible : Bool) :
    Option NodePool × Bool :=
  poolWithPreemptibleLoop preemptible npg.NodePools

/-! ## Collaborators and the purge of one group (`thyella.go`, `gke.go`, `k8s.go`) -/

/-- A call made on a collaborator. -/
inductive Call where
  | GetNodeList
  | GetNodePool (clusterName poolName : String) (nodes : List Node)
  | Purge (node : Option Node)
  | DeleteInstance (clusterName : String) (node : Option Node)
deriving DecidableEq, Repr

/-- The interface `KaasProvider` (`gke.go`, lines 16-20) over a collaborator
state `σ`.  An error is returned as its message. -/
structure KaasProvider (σ : Type) where
  GetNodePool : String → String → List Node → σ → Except String NodePool × σ
  DeleteInstance : String → Option Node → σ → Option String × σ

/-- The interface `K8sAccessor` (`k8s.go`, lines 26-30) over a collaborator
state `σ`.  An error is returned as its message. -/
structure K8sAccessor (σ : Type) where
  GetNodeList : σ → Except String (List Node) × σ
  Purge : Option Node → σ → Option String × σ

/-- Thyella provide purge (`thyella.go`, lines 11-15). -/
structure Thyella (σ : Type) where
  KaasClient : KaasProvider σ
  K8sClient : K8sAccessor σ

/-- How a call of `purgeInGroup` ends: it returns `(node, ok, err)`, or it
dereferences a nil `*Node` (`target.Name` with a nil target) and panics. -/
inductive Outcome where
  | ret (node : Option Node) (ok : Bool) (err : Option String)
  | nilDeref
deriving DecidableEq, Repr

/-- A finished run: the outcome, the collaborator calls in the order they were
made, and the collaborator state left behind. -/
structure Run (σ : Type) where
  out : Outcome
  calls : List Call
  state : σ

/-- The map `nodeEachPools` of `Thyella.Purge`, a `map[string]*Node`. -/
abbrev PoolIndex := List (String × Node)

/-- The first loop of `purgeInGroup` (`thyella.go`, lines 56-66): pools without
an entry in `nodeEachPools` are skipped, an error of `GetNodePool` ends the
function, a fetched pool is appended to `npg.NodePools`.  The arguments `acc`
and `cs` are the pools and the calls accumulated so far. -/
def fetchLoop {σ : Type} (kaas : KaasProvider σ) (cluster : String) (nodes : List Node)
    (nodeEachPools : PoolIndex) :
    List String → List NodePool → List Call → σ → Except String (List NodePool) × List Call × σ
  | [], acc, cs, s => (.ok acc, cs, s)
  | pool :: rest, acc, cs, s =>
    match nodeEachPools.lookup pool with
    | none => fetchLoop kaas cluster nodes nodeEachPools rest acc cs s
    | some _ =>
      match kaas.GetNodePool cluster pool nodes s with
      | (.error err, s1) => (.error err, cs ++ [Call.GetNodePool cluster pool nodes], s1)
      | (.ok np, s1) =>
        fetchLoop kaas cluster nodes nodeEachPools rest (acc ++ [np])
          (cs ++ [Call.GetNodePool cluster pool nodes]) s1

/-- The second loop of `purgeInGroup` (`thyella.go`, lines 70-76):
`ready := true; for each np { if !np.AllGreen() { ready = false } }`. -/
def readyLoop (nps : List NodePool) : Bool :=
  nps.foldl (fun ready np => if !np.AllGreen then false else ready) true

/-- The sequence that both branches of `purgeInGroup` run on their target
(`thyella.go`, lines 85-91 and 98-104): `K8sClient.Purge`, then
`KaasClient.DeleteInstance`, then `return target, true, nil`.  On an error the
message is built from `target.Name`, which panics when `target` is nil. -/
def purgeAndDelete {σ : Type} (p : Thyella σ) (cluster : String) (target : Option Node)
    (cs : List Call) (s : σ) : Run σ :=
  match p.K8sClient.Purge target s with
  | (some err, s1) =>
    match target with
    | none => ⟨.nilDeref, cs ++ [Call.Purge target], s1⟩
    | some t =>
      ⟨.ret none false (some ("failed to purge node: " ++ t.Name ++ " " ++ err)),
        cs ++ [Call.Purge target], s1⟩
  | (none, s1) =>
    match p.KaasClient.DeleteInstance cluster target s1 with
    | (some err, s2) =>
      match target with
      | none => ⟨.nilDeref, cs ++ [Call.Purge target, Call.DeleteInstance cluster target], s2⟩
      | some t =>
        ⟨.ret none false (some ("failed to delete instance: " ++ t.Name ++ " " ++ err)),
          cs ++ [Call.Purge target, Call.DeleteInstance cluster target], s2⟩
    | (none, s2) =>
      ⟨.ret target true none, cs ++ [Call.Purge target, Call.DeleteInstance cluster target], s2⟩

/-- The preemptible branch and the final return of `purgeInGroup`
(`thyella.go`, lines 95-109). -/
def purgePreemptible {σ : Type} (p : Thyella σ) (cluster : String) (npg : NodePoolGroup)
    (cs : List Call) (s : σ) : Run σ :=
  match npg.GetPoolWithPreemptible true with
  | (some np, true) =>
    match np.GetMaxAgeNode with
    | (target, true) => purgeAndDelete p cluster target cs s
    | (_, false) => ⟨.ret none false none, cs, s⟩
  | _ => ⟨.ret none false none, cs, s⟩

/-- The part of `purgeInGroup` that follows the fetch loop (`thyella.go`,
lines 70-110): the health gate, the non-preemptible branch, the preemptible
branch. -/
def purgeDecision {σ : Type} (p : Thyella σ) (ord : MapOrder) (cluster : String)
    (npg : NodePoolGroup) (cs : List Call) (s : σ) : Run σ :=
  if !readyLoop npg.NodePools then ⟨.ret none false none, cs, s⟩
  else
    match npg.GetPoolWithPreemptible false with
    | (some np, true) =>
      if !np.IsMinimumNodes then
        purgeAndDelete p cluster (np.GetMaxAgeNodeWithBalance ord).1 cs s
      else purgePreemptible p cluster npg cs s
    | _ => purgePreemptible p cluster npg cs s

/-- The method `purgeInGroup` (`thyella.go`, lines 52-110).  The argument `ord`
is the order in which the zone map of `GetMaxAgeNodeWithBalance` is visited. -/
def Thyella.purgeInGroup {σ : Type} (p : Thyella σ) (ord : MapOrder) (cluster : String)
    (group : List String) (nodes : List Node) (nodeEachPools : PoolIndex) (s : σ) : Run σ :=
  match fetchLoop p.KaasClient cluster nodes nodeEachPools group [] [] s with
  | (.error err, cs, s1) => ⟨.ret none false (some err), cs, s1⟩
  | (.ok nps, cs, s1) => purgeDecision p ord cluster ⟨nps⟩ cs s1

/-! ## The entry point `Thyella.Purge` (`thyella.go`) -/

/-- One iteration of the loop at `thyella.go` lines 35-40: the first node seen
for a pool name is kept as the entry of that name in `nodeEachPools`. -/
def nodeEachPoolsStep (m : PoolIndex) (n : Node) : PoolIndex :=
  match m.lookup n.NodePool with
  | some _ => m
  | none => m ++ [(n.NodePool, n)]

/-- The map `nodeEachPools` that `Thyella.Purge` builds (`thyella.go`,
lines 34-40). -/
def nodeEachPools (nodes : List Node) : PoolIndex :=
  nodes.foldl nodeEachPoolsStep []

/-- How a call of `Thyella.Purge` ends: it returns an error or nil, or it
dereferences a nil `*Node` and panics (in `purgeInGroup`, or at `n.Name` on
line 47 when `purgeInGroup` has returned a nil node with `ok = true`). -/
inductive PurgeOutcome where
  | ret (err : Option String)
  | nilDeref
deriving DecidableEq, Repr

/-- A finished run of `Thyella.Purge`: the outcome, the collaborator calls in
the order they were made, and the collaborator state left behind. -/
structure PurgeRun (σ : Type) where
  out : PurgeOutcome
  calls : List Call
  state : σ

/-- The end of `Thyella.Purge` (`thyella.go`, lines 42-49), given what
`purgeInGroup` has returned. -/
def purgeResult : Outcome → PurgeOutcome
  | .nilDeref => .nilDeref
  | .ret _ _ (some err) => .ret (some err)
  | .ret none true none => .nilDeref
  | .ret _ _ none => .ret none

/-- The method `Thyella.Purge` (`thyella.go`, lines 17-50).  The argument `ord`
is the order in which the zone map of `GetMaxAgeNodeWithBalance` is visited. -/
def Thyella.Purge {σ : Type} (p : Thyella σ) (ord : MapOrder) (cluster : String)
    (nps : List String) (s : σ) : PurgeRun σ :=
  if nps.length = 0 then ⟨.ret none, [], s⟩
  else
    match p.K8sClient.GetNodeList s with
    | (.error err, s0) => ⟨.ret (some err), [Call.GetNodeList], s0⟩
    | (.ok nodes, s0) =>
      if nodes.length = 0 then ⟨.ret none, [Call.GetNodeList], s0⟩
      else
        let r := p.purgeInGroup ord cluster nps nodes (nodeEachPools nodes) s0
        ⟨purgeResult r.out, Call.GetNodeList :: r.calls, r.state⟩

/-! ## The cluster client `K8sClient` (`k8s.go`) -/

/-- The part of a node object of the cluster API that `k8s.go` reads and writes
during a purge: its name and the flag `Spec.Unschedulable`. -/
structure NodeObject where
  Name : String
  Unschedulable : Bool
deriving DecidableEq, Repr

/-- The part of an API group that `policyVersion` reads: its name and
`PreferredVersion.GroupVersion`. -/
structure APIGroup where
  Name : String
  PreferredVersion : String
deriving DecidableEq, Repr

/-- The part of an API resource that `policyVersion` reads. -/
structure APIResource where
  Name : String
  Kind : String
deriving DecidableEq, Repr

/-- The part of a pod that `evictPods` reads. -/
structure Pod where
  Name : String
  Namespace : String
deriving DecidableEq, Repr

/-- The eviction object that `evictPods` builds (`k8s.go`, lines 213-222). -/
structure Eviction where
  APIVersion : String
  Kind : String
  Name : String
  Namespace : String
deriving DecidableEq, Repr

/-- The constant `EvictionKind` (`k8s.go`, line 129). -/
def EvictionKind : String := "Eviction"

/-- The constant `EvictionSubresource` (`k8s.go`, line 130). -/
def EvictionSubresource : String := "pods/eviction"

/-- The requests that `k8s.go` sends through `clientset` during a purge, over a
cluster state `σ`: `CoreV1().Nodes().Get`, `.Update` and `.Delete`, the two
discovery requests, `CoreV1().Pods(all).List` with the field selector
`spec.nodeName` set to the given name, and `PolicyV1beta1().Evictions(ns).Evict`.
An error is returned as its message. -/
structure Clientset (σ : Type) where
  NodesGet : String → σ → Except String NodeObject × σ
  NodesUpdate : NodeObject → σ → Option String × σ
  NodesDelete : String → σ → Option String × σ
  ServerGroups : σ → Except String (List APIGroup) × σ
  ServerResourcesForGroupVersion : String → σ → Except String (List APIResource) × σ
  PodsList : String → σ → Except String (List Pod) × σ
  Evict : Eviction → σ → Option String × σ

/-- K8sClient k8s client (`k8s.go`, lines 32-35). -/
structure K8sClient (σ : Type) where
  clientset : Clientset σ

/-- What `K8sClient` does during a purge: an entry into `applyCordonOrUncordon`
with its arguments, or a request sent through `clientset`. -/
inductive K8sEvent where
  | applyCordonOrUncordon (name : String) (cordon : Bool)
  | NodesGet (name : String)
  | NodesUpdate (n : NodeObject)
  | NodesDelete (name : String)
  | ServerGroups
  | ServerResourcesForGroupVersion (groupVersion : String)
  | PodsList (nodeName : String)
  | Evict (eviction : Eviction)
deriving DecidableEq, Repr

/-- A finished call of a method of `K8sClient` that returns an `error`: the
error (nil is `none`), the events in order, and the cluster state left
behind. -/
structure K8sRun (σ : Type) where
  err : Option String
  calls : List K8sEvent
  state : σ

/-- The method `applyCordonOrUncordon` (`k8s.go`, lines 178-202). -/
def K8sClient.applyCordonOrUncordon {σ : Type} (k8s : K8sClient σ) (node : Node)
    (cordon : Bool) (s : σ) : K8sRun σ :=
  match k8s.clientset.NodesGet node.Name s with
  | (.error err, s1) =>
    ⟨some err, [.applyCordonOrUncordon node.Name cordon, .NodesGet node.Name], s1⟩
  | (.ok n, s1) =>
    if n.Unschedulable = cordon then
      ⟨none, [.applyCordonOrUncordon node.Name cordon, .NodesGet node.Name], s1⟩
    else
      match k8s.clientset.NodesUpdate { n with Unschedulable := cordon } s1 with
      | (err, s2) =>
        ⟨err, [.applyCordonOrUncordon node.Name cordon, .NodesGet node.Name,
          .NodesUpdate { n with Unschedulable := cordon }], s2⟩

/-- The first loop of `policyVersion` (`k8s.go`, lines 153-161): the pair
`(foundPolicyGroup, policyGroupVersion)`. -/
def policyGroupLoop : List APIGroup → Bool × String
  | [] => (false, "")
  | group :: rest =>
    if group.Name = "policy" then (true, group.PreferredVersion) else policyGroupLoop rest

/-- The second loop of `policyVersion` (`k8s.go`, lines 170-175): whether a
resource is the eviction subresource of pods. -/
def evictionResourceLoop : List APIResource → Bool
  | [] => false
  | resource :: rest =>
    if resource.Name = EvictionSubresource ∧ resource.Kind = EvictionKind then true
    else evictionResourceLoop rest

/-- The method `policyVersion` (`k8s.go`, lines 146-176). -/
def K8sClient.policyVersion {σ : Type} (k8s : K8sClient σ) (s : σ) :
    Except String String × List K8sEvent × σ :=
  match k8s.clientset.ServerGroups s with
  | (.error err, s1) => (.error err, [.ServerGroups], s1)
  | (.ok groups, s1) =>
    match policyGroupLoop groups with
    | (false, _) => (.ok "", [.ServerGroups], s1)
    | (true, policyGroupVersion) =>
      match k8s.clientset.ServerResourcesForGroupVersion "v1" s1 with
      | (.error err, s2) =>
        (.error err, [.ServerGroups, .ServerResourcesForGroupVersion "v1"], s2)
      | (.ok resources, s2) =>
        if evictionResourceLoop resources then
          (.ok policyGroupVersion, [.ServerGroups, .ServerResourcesForGroupVersion "v1"], s2)
        else (.ok "", [.ServerGroups, .ServerResourcesForGroupVersion "v1"], s2)

/-- The loop of `evictPods` (`k8s.go`, lines 212-228): the pods are evicted one
by one in listing order, the first failure ends the loop. -/
def evictLoop {σ : Type} (cs : Clientset σ) (policy : String) : List Pod → σ → K8sRun σ
  | [], s => ⟨none, [], s⟩
  | pod :: rest, s =>
    match cs.Evict ⟨policy, EvictionKind, pod.Name, pod.Namespace⟩ s with
    | (some err, s1) =>
      ⟨some ("failed to evict pod: " ++ pod.Name ++ " " ++ err),
        [.Evict ⟨policy, EvictionKind, pod.Name, pod.Namespace⟩], s1⟩
    | (none, s1) =>
      ⟨(evictLoop cs policy rest s1).err,
        .Evict ⟨policy, EvictionKind, pod.Name, pod.Namespace⟩
          :: (evictLoop cs policy rest s1).calls,
        (evictLoop cs policy rest s1).state⟩

/-- The method `evictPods` (`k8s.go`, lines 204-230). -/
def K8sClient.evictPods {σ : Type} (k8s : K8sClient σ) (node : Node) (policy : String)
    (s : σ) : K8sRun σ :=
  match k8s.clientset.PodsList node.Name s with
  | (.error err, s1) => ⟨some err, [.PodsList node.Name], s1⟩
  | (.ok pods, s1) =>
    ⟨(evictLoop k8s.clientset policy pods s1).err,
      .PodsList node.Name :: (evictLoop k8s.clientset policy pods s1).calls,
      (evictLoop k8s.clientset policy pods s1).state⟩

/-- The method `drain` (`k8s.go`, lines 133-144). -/
def K8sClient.drain {σ : Type} (k8s : K8sClient σ) (node : Node) (s : σ) : K8sRun σ :=
  match k8s.policyVersion s with
  | (.error err, c1, s1) => ⟨some err, c1, s1⟩
  | (.ok policy, c1, s1) =>
    ⟨(k8s.evictPods node policy s1).err, c1 ++ (k8s.evictPods node policy s1).calls,
      (k8s.evictPods node policy s1).state⟩

/-- The method `delete` (`k8s.go`, lines 232-241).  On line 238 the verb `%w`
is given the nil `err` of the successful `Get`, which `fmt` prints as
`%!w(<nil>)`. -/
def K8sClient.delete {σ : Type} (k8s : K8sClient σ) (node : Node) (s : σ) : K8sRun σ :=
  match k8s.clientset.NodesGet node.Name s with
  | (.error err, s1) => ⟨some err, [.NodesGet node.Name], s1⟩
  | (.ok n, s1) =>
    if !n.Unschedulable then
      ⟨some ("detect schedulable flag, aborting delete node: " ++ node.Name ++ " %!w(<nil>)"),
        [.NodesGet node.Name], s1⟩
    else
      match k8s.clientset.NodesDelete node.Name s1 with
      | (err, s2) => ⟨err, [.NodesGet node.Name, .NodesDelete node.Name], s2⟩

/-- The block that `Purge` runs after a failed drain and after a failed delete
(`k8s.go`, lines 109-113 and 117-121): `e` is the wrapped failure,
`applyCordonOrUncordon(node, false)` is called, and its error, if any, is
appended to `e` by `fmt.Errorf("%+v: %w", e, err)`. -/
def K8sClient.uncordonAfter {σ : Type} (k8s : K8sClient σ) (node : Node) (e : String)
    (s : σ) : K8sRun σ :=
  match (k8s.applyCordonOrUncordon node false s).err with
  | some err =>
    ⟨some (e ++ ": " ++ err), (k8s.applyCordonOrUncordon node false s).calls,
      (k8s.applyCordonOrUncordon node false s).state⟩
  | none =>
    ⟨some e, (k8s.applyCordonOrUncordon node false s).calls,
      (k8s.applyCordonOrUncordon node false s).state⟩

/-- The method `K8sClient.Purge` (`k8s.go`, lines 100-126) on a node that is
not nil. -/
def K8sClient.Purge {σ : Type} (k8s : K8sClient σ) (node : Node) (s : σ) : K8sRun σ :=
  match k8s.applyCordonOrUncordon node true s with
  | ⟨some err, c1, s1⟩ => ⟨some err, c1, s1⟩
  | ⟨none, c1, s1⟩ =>
    match k8s.drain node s1 with
    | ⟨some err, c2, s2⟩ =>
      ⟨(k8s.uncordonAfter node ("failed to drain: " ++ err) s2).err,
        c1 ++ c2 ++ (k8s.uncordonAfter node ("failed to drain: " ++ err) s2).calls,
        (k8s.uncordonAfter node ("failed to drain: " ++ err) s2).state⟩
    | ⟨none, c2, s2⟩ =>
      match k8s.delete node s2 with
      | ⟨some err, c3, s3⟩ =>
        ⟨(k8s.uncordonAfter node ("failed to delete: " ++ err) s3).err,
          c1 ++ c2 ++ c3 ++ (k8s.uncordonAfter node ("failed to delete: " ++ err) s3).calls,
          (k8s.uncordonAfter node ("failed to delete: " ++ err) s3).state⟩
      | ⟨none, c3, s3⟩ => ⟨none, c1 ++ c2 ++ c3, s3⟩

/-- The value `K8sClient` behind the interface `K8sAccessor` (`NewK8sClient`,
`k8s.go`, lines 48-51).  The method `GetNodeList` (lines 63-98) is not part of
this embedding and is passed in.  On a nil node `Purge` panics in its first
statement (`node.NodePool`, line 102); the panic is rendered as an error,
which `purgeAndDelete` turns into `Outcome.nilDeref` for a nil target. -/
def K8sClient.accessor {σ : Type} (k8s : K8sClient σ)
    (getNodeList : σ → Except String (List Node) × σ) : K8sAccessor σ where
  GetNodeList := getNodeList
  Purge := fun node s =>
    match node with
    | some n => ((k8s.Purge n s).err, (k8s.Purge n s).state)
    | none => (some "invalid memory address or nil pointer dereference", s)

/-! ## Notions used to state the properties -/

/-- The node `n` is the first node of `ns` of greatest age: every node before
it is strictly younger, no node after it is older. -/
def FirstOldest (ns : List Node) (n : Node) : Prop :=
  ∃ pre post, ns = pre ++ n :: post ∧ (∀ x ∈ pre, x.Age < n.Age) ∧ (∀ x ∈ post, x.Age ≤ n.Age)

/-- The nodes of `ns` that lie in zone `z`, in list order. -/
def zoneNodes (ns : List Node) (z : String) : List Node :=
  ns.filter (fun n => decide (n.Zone = z))

/-- The entry `e` is the first entry of `v` of greatest size: every entry
visited before it is strictly smaller, no entry visited after it is larger. -/
def FirstLargest (v : ZoneMap) (e : String × List Node) : Prop :=
  ∃ pre post, v = pre ++ e :: post ∧ (∀ x ∈ pre, x.2.length < e.2.length) ∧
    (∀ x ∈ post, x.2.length ≤ e.2.length)

/-- The first node of `ns` whose age is greater than or equal to the age of
every node of `ns`, if `ns` has a node. -/
def firstOldest? (ns : List Node) : Option Node :=
  ns.find? (fun k => decide (∀ m ∈ ns, m.Age ≤ k.Age))

/-- The first pool of the group, in group order, whose `Preemptible` flag has
the given value. -/
def firstPool (preemptible : Bool) (nps : List NodePool) : Option NodePool :=
  nps.find? (fun q => q.Preemptible == preemptible)

/-- The number of nodes of the pool that have `Ready` set. -/
def readyCount (np : NodePool) : Int :=
  ((np.Nodes.filter (fun n => n.Ready)).length : Int)

/-- The integer `x` is a value of Go's 64 bit `int`: it lies between `-2^63`
and `2^63 - 1`. -/
def FitsInt (x : Int) : Prop :=
  -9223372036854775808 ≤ x ∧ x < 9223372036854775808

/-- The floor of the pool as an integer: `MinNodeCount` times the number of
entries of `ZoneURLs`. -/
def floorOf (np : NodePool) : Int :=
  np.MinNodeCount * (np.ZoneURLs.length : Int)

/-- The run `r` of `K8sClient.Purge` on `node` has rolled back after a failure
with message `failure`, wrapped with `wrap`, that left the cluster in state
`s` after the events `before`: the compensating
`applyCordonOrUncordon(node, false)` is run from `s` and ends the run, it is
entered exactly once in the whole run, and the error returned is the wrapped
failure, followed by the error of the uncordon when the uncordon fails. -/
def RolledBack {σ : Type} (k8s : K8sClient σ) (node : Node) (r : K8sRun σ)
    (before : List K8sEvent) (wrap failure : String) (s : σ) : Prop :=
  r.calls = before ++ (k8s.applyCordonOrUncordon node false s).calls ∧
  r.state = (k8s.applyCordonOrUncordon node false s).state ∧
  r.calls.count (K8sEvent.applyCordonOrUncordon node.Name false) = 1 ∧
  ((k8s.applyCordonOrUncordon node false s).err = none → r.err = some (wrap ++ failure)) ∧
  (∀ err, (k8s.applyCordonOrUncordon node false s).err = some err →
    r.err = some (wrap ++ failure ++ ": " ++ err))

/-- The event is neither an entry into `applyCordonOrUncordon` nor the deletion
of a node object. -/
def drainOnly (e : K8sEvent) : Prop :=
  (∀ name cordon, e ≠ K8sEvent.applyCordonOrUncordon name cordon) ∧
  (∀ name, e ≠ K8sEvent.NodesDelete name)

/-- The call is a call of `K8sClient.Purge`. -/
def Call.isPurge : Call → Bool
  | .Purge _ => true
  | _ => false

/-- The call is a call of `KaasClient.DeleteInstance`. -/
def Call.isDeleteInstance : Call → Bool
  | .DeleteInstance _ _ => true
  | _ => false

/-! ## Fixtures of the repository's tests (`thyella_test.go`) -/

/-- The node `nodeA` of `TestPurgeInGroupWithBalanced` (line 304). -/
def balancedNodeA : Node := ⟨"na", "pa", "za", 1, true⟩

/-- The node `nodeB` of `TestPurgeInGroupWithBalanced` (line 305). -/
def balancedNodeB : Node := ⟨"nb", "pa", "za", 2, true⟩

/-- The node `nodeC` of `TestPurgeInGroupWithBalanced` (line 307). -/
def balancedNodeC : Node := ⟨"nc", "pa", "zb", 3, true⟩

/-- The pool `pa` returned by `GetNodePool` in `TestPurgeInGroupWithBalanced`
(lines 326-332). -/
def balancedPool : NodePool :=
  ⟨"pa", false, 0, false, statusNodePoolStable, ["1", "2"],
    [balancedNodeA, balancedNodeB, balancedNodeC]⟩

/-- A node of zone `za`, of age 1. -/
def tieNodeA : Node := ⟨"na", "pa", "za", 1, true⟩

/-- A node of zone `zb`, of age 2. -/
def tieNodeB : Node := ⟨"nb", "pa", "zb", 2, true⟩

/-- A pool whose two zones hold one node each. -/
def tiePool : NodePool :=
  ⟨"pa", false, 0, false, statusNodePoolStable, ["1", "2"], [tieNodeA, tieNodeB]⟩

/-- A stand-in for the cloud collaborator in the manner of the tests' mock:
`GetNodePool` answers with the pool of that name out of `pools`, and with an
error when there is none; `DeleteInstance` succeeds. -/
def stubKaas (pools : List NodePool) : KaasProvider Unit where
  GetNodePool := fun _ poolName _ s =>
    match pools.find? (fun q => q.Name == poolName) with
    | some np => (.ok np, s)
    | none => (.error "not found", s)
  DeleteInstance := fun _ _ s => (none, s)

/-- A stand-in for the cluster collaborator in the manner of the tests' mock:
`GetNodeList` answers with `nodes`, `Purge` succeeds. -/
def stubK8s (nodes : List Node) : K8sAccessor Unit where
  GetNodeList := fun s => (.ok nodes, s)
  Purge := fun _ s => (none, s)

/-- The purger of the tests, built on the two stand-ins. -/
def stubThyella (pools : List NodePool) (nodes : List Node) : Thyella Unit :=
  ⟨stubKaas pools, stubK8s nodes⟩

/-- The node `nodeA` of `TestPurgeInGroup` (line 139). -/
def nodeA : Node := ⟨"na", "pa", "za", 0, true⟩

/-- The node `nodeB` of `TestPurgeInGroup` (line 140). -/
def nodeB : Node := ⟨"nb", "pb", "zb", 0, true⟩

/-- The node `nodeC` of `TestPurgeInGroup` (line 142), which is not ready. -/
def nodeC : Node := ⟨"nc", "pc", "", 0, false⟩

/-- The map `nep` of the cases of `TestPurgeInGroup` (lines 158-161). -/
def testIndex : PoolIndex := [("pa", nodeA), ("pb", nodeB)]

/-- The pool `pa` of the first case of `TestPurgeInGroup` (lines 164-170). -/
def enoughPa : NodePool := ⟨"pa", false, 0, false, statusNodePoolStable, ["1"], [nodeA]⟩

/-- The pool `pb` of the first case of `TestPurgeInGroup` (lines 171-177). -/
def enoughPb : NodePool := ⟨"pb", false, 0, true, statusNodePoolStable, ["1"], [nodeB]⟩

/-- The pool `pa` of the second case of `TestPurgeInGroup` (lines 194-200). -/
def minimumPa : NodePool := ⟨"pa", false, 2, false, statusNodePoolStable, ["1"], [nodeA]⟩

/-- The pool `pb` of the second case of `TestPurgeInGroup` (lines 201-208). -/
def minimumPb : NodePool := ⟨"pb", false, 0, true, statusNodePoolStable, ["1"], [nodeB]⟩

/-- The pool `pa` of the third case of `TestPurgeInGroup` (lines 225-230), which
holds the node `nodeC` that is not ready. -/
def unhealthyPa : NodePool := ⟨"pa", false, 0, false, statusNodePoolStable, ["1"], [nodeA, nodeC]⟩

/-- The pool `pb` of the third case of `TestPurgeInGroup` (lines 231-237). -/
def unhealthyPb : NodePool := ⟨"pb", false, 0, true, statusNodePoolStable, ["1"], [nodeB]⟩

/-- The node `nodeA` of `TestRun` (line 22). -/
def runNodeA : Node := ⟨"na", "pa", "", 0, true⟩

/-- The node `nodeB` of `TestRun` (line 23). -/
def runNodeB : Node := ⟨"nb", "pb", "", 0, true⟩

/-- The node `nodeC` of `TestRun` (line 24). -/
def runNodeC : Node := ⟨"nc", "pc", "", 0, true⟩

/-- The map `nodeEachPools` that `Thyella.Purge` builds from the node list of
`TestRun` (`thyella.go`, lines 34-40). -/
def runIndex : PoolIndex := [("pa", runNodeA), ("pb", runNodeB), ("pc", runNodeC)]

/-- The pool `pa` of the third case of `TestRun` (lines 92-98). -/
def floorPa : NodePool := ⟨"pa", false, 1, false, statusNodePoolStable, ["1"], [runNodeA]⟩

/-- The pool `pb` of the third case of `TestRun` (lines 99-105); the test does
not set `Preemptible`. -/
def floorPb : NodePool := ⟨"pb", false, 1, false, statusNodePoolStable, ["1"], [runNodeB]⟩

/-- The pool `pb` of the third case of `TestRun` with `Preemptible` set. -/
def floorPbPreemptible : NodePool :=
  ⟨"pb", false, 1, true, statusNodePoolStable, ["1"], [runNodeB]⟩

/-- The state of a one node cluster used as a stand-in for the cluster API:
the flag `Spec.Unschedulable` of the node and the number of `Get` requests
answered so far. -/
structure ClusterState where
  unschedulable : Bool
  gets : Nat
deriving DecidableEq, Repr

/-- A stand-in for `clientset` over `ClusterState`.  `Get` answers with the node
object in its present state, except that the request number `getFails`
(counted from zero) fails with `getErr`; `Update` stores the flag; `Delete` and
`Evict` succeed; no pod is listed.  The discovery of the API groups fails with
`groupsErr` when one is given and else finds no group.  With `race` set the
node is made schedulable again while the pods are listed. -/
def stubClientset (groupsErr : Option String) (getFails : Option Nat) (getErr : String)
    (race : Bool) : Clientset ClusterState where
  NodesGet := fun name s =>
    if getFails = some s.gets then (.error getErr, { s with gets := s.gets + 1 })
    else (.ok ⟨name, s.unschedulable⟩, { s with gets := s.gets + 1 })
  NodesUpdate := fun n s => (none, { s with unschedulable := n.Unschedulable })
  NodesDelete := fun _ s => (none, s)
  ServerGroups := fun s =>
    match groupsErr with
    | some err => (.error err, s)
    | none => (.ok [], s)
  ServerResourcesForGroupVersion := fun _ s => (.ok [], s)
  PodsList := fun _ s => (.ok [], if race then { s with unschedulable := false } else s)
  Evict := fun _ s => (none, s)

/-- A cluster in which the drain fails with `x: y` and the uncordon succeeds. -/
def drainFailsClient : K8sClient ClusterState :=
  ⟨stubClientset (some "x: y") none "" false⟩

/-- A cluster in which the drain fails with `x` and the uncordon fails with `y`
(its `Get`, the second of the run, fails). -/
def uncordonFailsClient : K8sClient ClusterState :=
  ⟨stubClientset (some "x") (some 1) "y" false⟩

/-- A cluster in which the node is made schedulable again between the cordon and
the delete step. -/
def raceClient : K8sClient ClusterState :=
  ⟨stubClientset none none "" true⟩

/-- A cluster in which every request succeeds. -/
def calmClient : K8sClient ClusterState :=
  ⟨stubClientset none none "" false⟩

/-- The cluster state before a purge: the node is schedulable. -/
def clusterStart : ClusterState := ⟨false, 0⟩

/-- The stand-in `stubKaas` over the cluster state `ClusterState`. -/
def stubKaasOn (pools : List NodePool) : KaasProvider ClusterState where
  GetNodePool := fun _ poolName _ s =>
    match pools.find? (fun q => q.Name == poolName) with
    | some np => (.ok np, s)
    | none => (.error "not found", s)
  DeleteInstance := fun _ _ s => (none, s)

/-- A purger whose cluster collaborator is the `K8sClient` of `k8s.go` over the
stand-in `clientset`, and whose node list is `nodes`. -/
def clientThyella (k8s : K8sClient ClusterState) (pools : List NodePool)
    (nodes : List Node) : Thyella ClusterState :=
  ⟨stubKaasOn pools, k8s.accessor (fun s => (.ok nodes, s))⟩

/-- A non-preemptible pool without nodes, with two zones, whose `MinNodeCount`
is `2^62`: the product of line 89 of `types.go` is `2^63`, which Go's `int`
holds as `-2^63`. -/
def overflowPa : NodePool :=
  ⟨"pa", false, 4611686018427387904, false, statusNodePoolStable, ["1", "2"], []⟩

/-- A non-preemptible pool without nodes whose `MinNodeCount` is negative. -/
def negativePa : NodePool := ⟨"pa", false, -1, false, statusNodePoolStable, ["1"], []⟩

/-- The pool `pa` of the first case of `TestRun` (lines 48-53). -/
def runPa : NodePool := ⟨"pa", false, 0, false, statusNodePoolStable, [], [runNodeA]⟩

/-- The pool `pb` of the first case of `TestRun` (lines 54-59). -/
def runPb : NodePool := ⟨"pb", false, 0, true, statusNodePoolStable, [], [runNodeB]⟩

/-! ## The age loop -/

theorem maxAgeLoop_snoc (ns : List Node) (a : Node) :
    maxAgeLoop (ns ++ [a]) = maxAgeStep (maxAgeLoop ns) a := by
  simp [maxAgeLoop, List.foldl_append]

theorem maxAgeLoop_spec (ns : List Node) :
    (ns = [] ∧ maxAgeLoop ns = none) ∨ ∃ n, maxAgeLoop ns = some n ∧ FirstOldest ns n := by
  induction ns using List.reverseRecOn with
  | nil => exact Or.inl ⟨rfl, rfl⟩
  | append_singleton ns a ih =>
    right
    rw [maxAgeLoop_snoc]
    rcases ih with ⟨h, hn⟩ | ⟨n, hn, pre, post, hsplit, hpre, hpost⟩
    · subst h
      rw [hn]
      exact ⟨a, rfl, [], [], rfl, by simp, by simp⟩
    · rw [hn]
      simp only [maxAgeStep]
      by_cases hlt : n.Age < a.Age
      · rw [if_pos hlt]
        refine ⟨a, rfl, ns, [], rfl, ?_, by simp⟩
        intro x hx
        rw [hsplit] at hx
        simp only [List.mem_append, List.mem_cons] at hx
        rcases hx with hx | rfl | hx
        · exact lt_trans (hpre x hx) hlt
        · exact hlt
        · exact lt_of_le_of_lt (hpost x hx) hlt
      · rw [if_neg hlt]
        refine ⟨n, rfl, pre, post ++ [a], by simp [hsplit], hpre, ?_⟩
        intro x hx
        simp only [List.mem_append, List.mem_singleton] at hx
        rcases hx with hx | rfl
        · exact hpost x hx
        · exact not_lt.mp hlt

theorem firstOldest_mem {ns : List Node} {n : Node} (h : FirstOldest ns n) : n ∈ ns := by
  obtain ⟨pre, post, hsplit, -, -⟩ := h
  simp [hsplit]

theorem firstOldest_le {ns : List Node} {n : Node} (h : FirstOldest ns n) :
    ∀ m ∈ ns, m.Age ≤ n.Age := by
  obtain ⟨pre, post, hsplit, hpre, hpost⟩ := h
  intro m hm
  rw [hsplit] at hm
  simp only [List.mem_append, List.mem_cons] at hm
  rcases hm with hm | rfl | hm
  · exact le_of_lt (hpre m hm)
  · exact le_refl _
  · exact hpost m hm

theorem find?_split {α : Type} (q : α → Bool) (pre : List α) (n : α) (post : List α)
    (hpre : ∀ x ∈ pre, q x = false) (hn : q n = true) :
    (pre ++ n :: post).find? q = some n := by
  induction pre with
  | nil => simp [List.find?_cons, hn]
  | cons a pre ih =>
    have ha : q a = false := hpre a (List.mem_cons_self _ _)
    simp only [List.cons_append, List.find?_cons, ha]
    exact ih (fun x hx => hpre x (List.mem_cons_of_mem _ hx))

theorem firstOldest_find {ns : List Node} {n : Node} (h : FirstOldest ns n) :
    ns.find? (fun k => decide (∀ m ∈ ns, m.Age ≤ k.Age)) = some n := by
  have hle := firstOldest_le h
  have hmem := firstOldest_mem h
  obtain ⟨pre, post, hsplit, hpre, hpost⟩ := h
  have key := find?_split (fun k => decide (∀ m ∈ ns, m.Age ≤ k.Age)) pre n post
    (fun x hx => by
      apply decide_eq_false
      intro hall
      exact absurd (hpre x hx) (not_lt.mpr (hall n hmem)))
    (decide_eq_true hle)
  rw [← hsplit] at key
  exact key

theorem maxAgeLoop_eq_none (ns : List Node) : maxAgeLoop ns = none ↔ ns = [] := by
  rcases maxAgeLoop_spec ns with ⟨h, hn⟩ | ⟨n, hn, hfo⟩
  · simp [h, hn]
    rfl
  · have := firstOldest_mem hfo
    constructor
    · intro h0; rw [hn] at h0; cases h0
    · intro h0; subst h0; cases this

theorem maxAgeLoop_eq_find (ns : List Node) :
    maxAgeLoop ns = firstOldest? ns := by
  unfold firstOldest?
  rcases maxAgeLoop_spec ns with ⟨h, hn⟩ | ⟨n, hn, hfo⟩
  · subst h; rw [hn]; rfl
  · rw [hn, firstOldest_find hfo]

/-! ## The zone map and the zone of greatest size -/

theorem zoneNodes_snoc (ns : List Node) (a : Node) (z : String) :
    zoneNodes (ns ++ [a]) z = zoneNodes ns z ++ (if a.Zone = z then [a] else []) := by
  unfold zoneNodes
  rw [List.filter_append]
  by_cases h : a.Zone = z <;> simp [List.filter_cons, h]

theorem mem_zoneNodes {ns : List Node} {z : String} {n : Node} :
    n ∈ zoneNodes ns z ↔ n ∈ ns ∧ n.Zone = z := by
  simp [zoneNodes, List.mem_filter]

theorem nodeEachZone_snoc (ns : List Node) (a : Node) :
    nodeEachZone (ns ++ [a]) = zoneInsert (nodeEachZone ns) a := by
  simp [nodeEachZone, List.foldl_append]

/-- The entries of the map `nodeEachZone`: one entry for every zone that holds a
node, and its value is the list of the nodes of that zone in list order. -/
theorem mem_nodeEachZone (ns : List Node) (z : String) (l : List Node) :
    (z, l) ∈ nodeEachZone ns ↔ (l = zoneNodes ns z ∧ l ≠ []) := by
  induction ns using List.reverseRecOn generalizing z l with
  | nil =>
    simp only [nodeEachZone, List.foldl_nil, List.not_mem_nil, zoneNodes, List.filter_nil,
      false_iff, not_and, not_not]
    exact fun h => h
  | append_singleton ns a ih =>
    rw [nodeEachZone_snoc, zoneNodes_snoc]
    unfold zoneInsert
    cases hlook : (nodeEachZone ns).lookup a.Zone with
    | none =>
      have hfree : ∀ x, (a.Zone, x) ∉ nodeEachZone ns := by
        intro x hx
        have := (List.lookup_eq_none_iff.mp hlook) (a.Zone, x) hx
        simp at this
      have hempty : zoneNodes ns a.Zone = [] := by
        by_contra hne
        exact hfree _ ((ih a.Zone _).mpr ⟨rfl, hne⟩)
      simp only [List.mem_append, List.mem_singleton, Prod.mk.injEq]
      by_cases hz : a.Zone = z
      · subst hz
        simp only [if_true, hempty, List.nil_append]
        constructor
        · rintro (h | ⟨-, rfl⟩)
          · exact absurd h (hfree l)
          · exact ⟨rfl, by simp⟩
        · rintro ⟨rfl, -⟩
          exact Or.inr ⟨trivial, rfl⟩
      · simp only [if_neg hz, List.append_nil]
        constructor
        · rintro (h | ⟨rfl, -⟩)
          · exact (ih z l).mp h
          · exact absurd rfl hz
        · intro h
          exact Or.inl ((ih z l).mpr h)
    | some v =>
      obtain ⟨e, he, hek⟩ : ∃ e ∈ nodeEachZone ns, e.1 = a.Zone := by
        have hsome : ((nodeEachZone ns).lookup a.Zone).isSome = true := by simp [hlook]
        obtain ⟨e, he, hk⟩ := List.lookup_isSome_iff.mp hsome
        exact ⟨e, he, (beq_iff_eq.mp hk).symm⟩
      simp only [List.mem_map]
      by_cases hz : a.Zone = z
      · subst hz
        simp only [if_true]
        constructor
        · rintro ⟨x, hx, hfx⟩
          by_cases hxk : x.1 = a.Zone
          · rw [if_pos hxk] at hfx
            have hx2 := (ih x.1 x.2).mp hx
            simp only [Prod.mk.injEq] at hfx
            obtain ⟨-, rfl⟩ := hfx
            refine ⟨?_, by simp⟩
            rw [← hxk, ← hx2.1]
          · rw [if_neg hxk] at hfx
            rw [hfx] at hxk
            exact absurd rfl hxk
        · rintro ⟨rfl, -⟩
          refine ⟨e, he, ?_⟩
          rw [if_pos hek]
          have he2 := (ih e.1 e.2).mp he
          rw [hek] at he2
          rw [he2.1, hek]
      · simp only [if_neg hz, List.append_nil]
        constructor
        · rintro ⟨x, hx, hfx⟩
          by_cases hxk : x.1 = a.Zone
          · rw [if_pos hxk] at hfx
            simp only [Prod.mk.injEq] at hfx
            exact absurd (hxk.symm.trans hfx.1) hz
          · rw [if_neg hxk] at hfx
            rw [hfx] at hx
            exact (ih z l).mp hx
        · intro h
          refine ⟨(z, l), (ih z l).mpr h, ?_⟩
          rw [if_neg (fun hk => hz hk.symm)]

theorem maxNumZone_snoc (v : ZoneMap) (a : String × List Node) :
    maxNumZone (v ++ [a]) = maxNumStep (maxNumZone v) a := by
  simp [maxNumZone, List.foldl_append]

theorem firstLargest_mem {v : ZoneMap} {e : String × List Node} (h : FirstLargest v e) :
    e ∈ v := by
  obtain ⟨pre, post, hsplit, -, -⟩ := h
  simp [hsplit]

theorem firstLargest_le {v : ZoneMap} {e : String × List Node} (h : FirstLargest v e) :
    ∀ x ∈ v, x.2.length ≤ e.2.length := by
  obtain ⟨pre, post, hsplit, hpre, hpost⟩ := h
  intro x hx
  rw [hsplit] at hx
  simp only [List.mem_append, List.mem_cons] at hx
  rcases hx with hx | rfl | hx
  · exact le_of_lt (hpre x hx)
  · exact le_refl _
  · exact hpost x hx

theorem maxNumZone_spec (v : ZoneMap) :
    (maxNumZone v = [] ∧ ∀ e ∈ v, e.2 = []) ∨
    ∃ e, maxNumZone v = e.2 ∧ e.2 ≠ [] ∧ FirstLargest v e := by
  induction v using List.reverseRecOn with
  | nil => exact Or.inl ⟨rfl, by simp⟩
  | append_singleton v a ih =>
    rw [maxNumZone_snoc]
    rcases ih with ⟨hr, hall⟩ | ⟨e, hr, hne, hfl⟩
    · rw [hr]
      unfold maxNumStep
      by_cases ha : a.2 = []
      · left
        refine ⟨by simp [ha], ?_⟩
        intro x hx
        simp only [List.mem_append, List.mem_singleton] at hx
        rcases hx with hx | rfl
        · exact hall x hx
        · exact ha
      · right
        have hpos : 0 < a.2.length := List.length_pos.mpr ha
        refine ⟨a, by simp [hpos], ha, v, [], rfl, ?_, by simp⟩
        intro x hx
        rw [hall x hx]
        exact hpos
    · right
      rw [hr]
      unfold maxNumStep
      by_cases hlt : e.2.length < a.2.length
      · rw [if_pos hlt]
        refine ⟨a, rfl, ?_, v, [], rfl, ?_, by simp⟩
        · intro h0
          rw [h0] at hlt
          simp at hlt
        · intro x hx
          exact lt_of_le_of_lt (firstLargest_le hfl x hx) hlt
      · rw [if_neg hlt]
        obtain ⟨pre, post, hsplit, hpre, hpost⟩ := hfl
        refine ⟨e, rfl, hne, pre, post ++ [a], by simp [hsplit], hpre, ?_⟩
        intro x hx
        simp only [List.mem_append, List.mem_singleton] at hx
        rcases hx with hx | rfl
        · exact hpost x hx
        · exact not_lt.mp hlt

/-- The selection of `GetMaxAgeNodeWithBalance` on a non-empty node list: the
loop over the zone map stops on the first entry of greatest size in visiting
order, that entry holds the nodes of its zone, and the age loop returns the
first oldest node of the entry. -/
theorem balance_core (ord : MapOrder) (ns : List Node) (hne : ns ≠ []) :
    ∃ e n, FirstLargest (ord.visit (nodeEachZone ns)) e ∧ e.2 = zoneNodes ns e.1 ∧
      maxNumZone (ord.visit (nodeEachZone ns)) = e.2 ∧
      maxAgeLoop e.2 = some n ∧ FirstOldest e.2 n := by
  obtain ⟨n0, hn0⟩ := List.exists_mem_of_ne_nil ns hne
  have hz0 : zoneNodes ns n0.Zone ≠ [] :=
    List.ne_nil_of_mem (mem_zoneNodes.mpr ⟨hn0, rfl⟩)
  have hin0 : (n0.Zone, zoneNodes ns n0.Zone) ∈ ord.visit (nodeEachZone ns) :=
    (ord.perm _).mem_iff.mpr ((mem_nodeEachZone ns _ _).mpr ⟨rfl, hz0⟩)
  rcases maxNumZone_spec (ord.visit (nodeEachZone ns)) with ⟨-, hall⟩ | ⟨e, hr, hene, hfl⟩
  · exact absurd (hall _ hin0) hz0
  · have hmem : (e.1, e.2) ∈ nodeEachZone ns := (ord.perm _).mem_iff.mp (firstLargest_mem hfl)
    have hval := ((mem_nodeEachZone ns e.1 e.2).mp hmem).1
    rcases maxAgeLoop_spec e.2 with ⟨h0, -⟩ | ⟨n, hn, hfo⟩
    · exact absurd h0 hene
    · exact ⟨e, n, hfl, hval, hr, hn, hfo⟩

/-- The size of every zone is at most the size of the entry selected by the loop
over the zone map. -/
theorem zone_le_of_firstLargest (ord : MapOrder) (ns : List Node) (e : String × List Node)
    (hfl : FirstLargest (ord.visit (nodeEachZone ns)) e) (z : String) :
    (zoneNodes ns z).length ≤ e.2.length := by
  by_cases hz : zoneNodes ns z = []
  · simp [hz]
  · exact firstLargest_le hfl (z, zoneNodes ns z)
      ((ord.perm _).mem_iff.mpr ((mem_nodeEachZone ns _ _).mpr ⟨rfl, hz⟩))

/-- Claim C6.  Balance law: on a pool with at least one node, whatever the
order in which the zone map is visited, `GetMaxAgeNodeWithBalance` returns a
node of the pool whose zone holds at least as many nodes of the pool as every
zone, and whose age is at least the age of every node of the pool in the same
zone. -/
theorem balance_law (np : NodePool) (ord : MapOrder) (hne : np.Nodes ≠ []) :
    ∃ n, np.GetMaxAgeNodeWithBalance ord = (some n, true) ∧ n ∈ np.Nodes ∧
      (∀ z, (zoneNodes np.Nodes z).length ≤ (zoneNodes np.Nodes n.Zone).length) ∧
      (∀ m ∈ np.Nodes, m.Zone = n.Zone → m.Age ≤ n.Age) := by
  obtain ⟨e, n, hfl, hval, hr, hn, hfo⟩ := balance_core ord np.Nodes hne
  have hmem : n ∈ zoneNodes np.Nodes e.1 := hval ▸ firstOldest_mem hfo
  have hzone : n.Zone = e.1 := (mem_zoneNodes.mp hmem).2
  refine ⟨n, ?_, (mem_zoneNodes.mp hmem).1, ?_, ?_⟩
  · simp only [NodePool.GetMaxAgeNodeWithBalance, hr, hn, Option.isSome_some]
  · intro z
    rw [hzone, ← hval]
    exact zone_le_of_firstLargest ord np.Nodes e hfl z
  · intro m hm hmz
    apply firstOldest_le hfo
    rw [hval]
    exact mem_zoneNodes.mpr ⟨hm, hmz.trans hzone⟩

/-- The balance law on the pool of `TestPurgeInGroupWithBalanced` (nodes A in
zone za of age 1, B in zone za of age 2, C in zone zb of age 3): for every
visiting order of the zone map the node returned is B, not C. -/
theorem balance_law_witness :
    balancedPool.Nodes ≠ [] ∧
    ∀ ord : MapOrder, balancedPool.GetMaxAgeNodeWithBalance ord = (some balancedNodeB, true) := by
  refine ⟨by decide, fun ord => ?_⟩
  obtain ⟨n, hn, hmem, hcount, hage⟩ := balance_law balancedPool ord (by decide)
  rw [hn]
  have hcases : n = balancedNodeA ∨ n = balancedNodeB ∨ n = balancedNodeC := by
    simpa [balancedPool] using hmem
  rcases hcases with rfl | rfl | rfl
  · have := hage balancedNodeB (by decide) (by decide)
    exact absurd this (by decide)
  · rfl
  · have := hcount "za"
    exact absurd this (by decide)

/-- Claim C7, as the code has it.  On a pool with at least one node the zone
that `GetMaxAgeNodeWithBalance` selects is the first zone of greatest size in
the order in which the zone map is visited, and the node returned is the first
oldest node of that zone; the result does not depend on the visiting order
when one zone is strictly larger than every other zone. -/
theorem balance_tie_break (np : NodePool) (ord : MapOrder) (hne : np.Nodes ≠ []) :
    (∃ e, FirstLargest (ord.visit (nodeEachZone np.Nodes)) e ∧
      e.2 = zoneNodes np.Nodes e.1 ∧
      np.GetMaxAgeNodeWithBalance ord
        = (firstOldest? (zoneNodes np.Nodes e.1), (firstOldest? (zoneNodes np.Nodes e.1)).isSome)) ∧
    (∀ z0, (∀ z, z ≠ z0 → (zoneNodes np.Nodes z).length < (zoneNodes np.Nodes z0).length) →
      ∀ ord' : MapOrder, np.GetMaxAgeNodeWithBalance ord'
        = (firstOldest? (zoneNodes np.Nodes z0), (firstOldest? (zoneNodes np.Nodes z0)).isSome)) := by
  have hsel : ∀ o : MapOrder, ∃ e, FirstLargest (o.visit (nodeEachZone np.Nodes)) e ∧
      e.2 = zoneNodes np.Nodes e.1 ∧
      np.GetMaxAgeNodeWithBalance o
        = (firstOldest? (zoneNodes np.Nodes e.1),
            (firstOldest? (zoneNodes np.Nodes e.1)).isSome) := by
    intro o
    obtain ⟨e, n, hfl, hval, hr, -, -⟩ := balance_core o np.Nodes hne
    refine ⟨e, hfl, hval, ?_⟩
    simp only [NodePool.GetMaxAgeNodeWithBalance, hr]
    rw [maxAgeLoop_eq_find, hval]
  refine ⟨hsel ord, ?_⟩
  intro z0 hz0 ord'
  obtain ⟨e, hfl, hval, hres⟩ := hsel ord'
  have hez : e.1 = z0 := by
    by_contra hne0
    have h1 := hz0 e.1 hne0
    have h2 := zone_le_of_firstLargest ord' np.Nodes e hfl z0
    rw [hval] at h2
    omega
  rw [hres, hez]

/-- The selection of `GetMaxAgeNodeWithBalance` on a pool with two zones of one
node each, the map being visited backwards: the zone selected is zb. -/
theorem balance_tie_break_witness :
    tiePool.Nodes ≠ [] ∧
    ∃ e, FirstLargest (MapOrder.backward.visit (nodeEachZone tiePool.Nodes)) e ∧
      e.2 = zoneNodes tiePool.Nodes e.1 ∧
      tiePool.GetMaxAgeNodeWithBalance MapOrder.backward
        = (firstOldest? (zoneNodes tiePool.Nodes e.1),
            (firstOldest? (zoneNodes tiePool.Nodes e.1)).isSome) :=
  ⟨by decide, (balance_tie_break tiePool MapOrder.backward (by decide)).1⟩

/-- The claim C7 fails on the code.  In `tiePool` the zones za and zb tie for
the greatest size and the first node of the list lies in za, yet the node
returned is the node of za when the zone map is visited in one order and the
node of zb when it is visited in the other. -/
theorem tie_break_depends_on_map_order :
    (zoneNodes tiePool.Nodes "za").length = 1 ∧
    (zoneNodes tiePool.Nodes "zb").length = 1 ∧
    tiePool.Nodes.length = 2 ∧
    tiePool.Nodes.head? = some tieNodeA ∧
    tiePool.GetMaxAgeNodeWithBalance MapOrder.forward = (some tieNodeA, true) ∧
    tiePool.GetMaxAgeNodeWithBalance MapOrder.backward = (some tieNodeB, true) ∧
    tiePool.GetMaxAgeNodeWithBalance MapOrder.forward
      ≠ tiePool.GetMaxAgeNodeWithBalance MapOrder.backward := by
  decide

/-! ## The predicates `IsMinimumNodes` and `AllGreen` -/

theorem readyCnt_foldl (ns : List Node) (c : Int) :
    ns.foldl (fun cnt n => if n.Ready then cnt + 1 else cnt) c
      = c + ((ns.filter (fun n => n.Ready)).length : Int) := by
  induction ns generalizing c with
  | nil => simp
  | cons a ns ih =>
    rw [List.foldl_cons, ih]
    by_cases ha : a.Ready = true
    · simp [ha, List.filter_cons]; ring
    · simp [ha, List.filter_cons]

theorem readyCnt_eq (ns : List Node) :
    readyCnt ns = ((ns.filter (fun n => n.Ready)).length : Int) := by
  simp [readyCnt, readyCnt_foldl]

theorem allReadyLoop_iff (ns : List Node) :
    allReadyLoop ns = true ↔ ∀ n ∈ ns, n.Ready = true := by
  induction ns with
  | nil => simp [allReadyLoop]
  | cons a ns ih =>
    by_cases ha : a.Ready = true
    · simp [allReadyLoop, ha, ih]
    · simp [allReadyLoop, ha]

/-- Claim C8.  `GetMaxAgeNode` reports `ok = false`, and returns no node,
exactly when the pool has no nodes; in every case the node it returns is the
first node in the pool's node order whose age is greater than or equal to the
age of every node of the pool. -/
theorem getMaxAgeNode_first_oldest (np : NodePool) :
    ((np.GetMaxAgeNode).2 = false ↔ np.Nodes = []) ∧
    ((np.GetMaxAgeNode).1 = none ↔ np.Nodes = []) ∧
    (np.GetMaxAgeNode).1
      = np.Nodes.find? (fun n => decide (∀ m ∈ np.Nodes, m.Age ≤ n.Age)) := by
  refine ⟨?_, ?_, ?_⟩
  · simp only [NodePool.GetMaxAgeNode]
    rw [← maxAgeLoop_eq_none np.Nodes]
    cases maxAgeLoop np.Nodes <;> simp
  · simp only [NodePool.GetMaxAgeNode]
    exact maxAgeLoop_eq_none np.Nodes
  · simp only [NodePool.GetMaxAgeNode]
    exact maxAgeLoop_eq_find np.Nodes

theorem wrapInt_of_fits {x : Int} (h : FitsInt x) : wrapInt x = x := by
  obtain ⟨h1, h2⟩ := h
  unfold wrapInt
  omega

theorem isMinimumNodes_wrap (np : NodePool) :
    np.IsMinimumNodes = true ↔ readyCount np ≤ wrapInt (floorOf np) := by
  simp only [NodePool.IsMinimumNodes, readyCnt_eq, decide_eq_true_eq, readyCount, floorOf]

theorem isMinimumNodes_of_fits (np : NodePool) (hfit : FitsInt (floorOf np)) :
    np.IsMinimumNodes = true ↔ readyCount np ≤ floorOf np := by
  rw [isMinimumNodes_wrap, wrapInt_of_fits hfit]

theorem isMinimumNodes_false_of_fits (np : NodePool) (hfit : FitsInt (floorOf np)) :
    np.IsMinimumNodes = false ↔ floorOf np < readyCount np := by
  rw [Bool.eq_false_iff, Ne, isMinimumNodes_of_fits np hfit, not_le]

/-- Claim C9, as the code has it.  For a pool whose product of `MinNodeCount`
and the number of entries of `ZoneURLs` is a value of Go's `int`,
`IsMinimumNodes` is true exactly when the number of nodes of the pool with
`Ready` set is at most that product; with `MinNodeCount = 0` it is false as
soon as the pool has one ready node.  For every pool, `IsMinimumNodes` compares
the number of ready nodes with the product as Go's `int` holds it, wrapped
around. -/
theorem isMinimumNodes_iff (np : NodePool)
    (hfit : FitsInt (np.MinNodeCount * (np.ZoneURLs.length : Int))) :
    (np.IsMinimumNodes = true ↔
      ((np.Nodes.filter (fun n => n.Ready)).length : Int)
        ≤ np.MinNodeCount * (np.ZoneURLs.length : Int)) ∧
    (np.MinNodeCount = 0 → (∃ n ∈ np.Nodes, n.Ready = true) → np.IsMinimumNodes = false) ∧
    (∀ q : NodePool, q.IsMinimumNodes = true ↔
      ((q.Nodes.filter (fun n => n.Ready)).length : Int)
        ≤ wrapInt (q.MinNodeCount * (q.ZoneURLs.length : Int))) := by
  have key : np.IsMinimumNodes = true ↔
      ((np.Nodes.filter (fun n => n.Ready)).length : Int)
        ≤ np.MinNodeCount * (np.ZoneURLs.length : Int) :=
    isMinimumNodes_of_fits np hfit
  refine ⟨key, ?_, fun q => isMinimumNodes_wrap q⟩
  rintro h0 ⟨n, hn, hr⟩
  rw [Bool.eq_false_iff]
  intro h
  have hle := key.mp h
  rw [h0, zero_mul] at hle
  have hpos : 0 < (np.Nodes.filter (fun n => n.Ready)).length :=
    List.length_pos_of_mem (List.mem_filter.mpr ⟨hn, hr⟩)
  omega

/-- The pool `pa` of the second case of `TestPurgeInGroup`: one ready node, a
floor of two, and `IsMinimumNodes` is true. -/
theorem isMinimumNodes_iff_witness :
    FitsInt (minimumPa.MinNodeCount * (minimumPa.ZoneURLs.length : Int)) ∧
    ((minimumPa.Nodes.filter (fun n => n.Ready)).length : Int)
      ≤ minimumPa.MinNodeCount * (minimumPa.ZoneURLs.length : Int) ∧
    minimumPa.IsMinimumNodes = true :=
  ⟨⟨by decide, by decide⟩, by decide,
    (isMinimumNodes_iff minimumPa ⟨by decide, by decide⟩).1.mpr (by decide)⟩

/-- The claim C9 fails on the code.  The pool `overflowPa` has no node,
`MinNodeCount = 2^62` and two entries in `ZoneURLs`: the number of ready nodes,
zero, is at most `MinNodeCount` times the number of zones, yet `IsMinimumNodes`
is false, because the product of line 89 of `types.go` wraps around to
`-2^63`. -/
theorem isMinimumNodes_overflow :
    ((overflowPa.Nodes.filter (fun n => n.Ready)).length : Int)
      ≤ overflowPa.MinNodeCount * (overflowPa.ZoneURLs.length : Int) ∧
    overflowPa.MinNodeCount * (overflowPa.ZoneURLs.length : Int) = 9223372036854775808 ∧
    wrapInt (overflowPa.MinNodeCount * (overflowPa.ZoneURLs.length : Int))
      = -9223372036854775808 ∧
    overflowPa.IsMinimumNodes = false := by
  decide

/-- Claim C10.  `AllGreen` is true exactly when the pool's `Status` is
`"RUNNING"` and every node of the pool has `Ready` set; any other status and
any node that is not ready make it false. -/
theorem allGreen_iff (np : NodePool) :
    (np.AllGreen = true ↔ np.Status = "RUNNING" ∧ ∀ n ∈ np.Nodes, n.Ready = true) ∧
    (np.Status ≠ "RUNNING" → np.AllGreen = false) ∧
    ((∃ n ∈ np.Nodes, n.Ready = false) → np.AllGreen = false) := by
  have key : np.AllGreen = true ↔ np.Status = "RUNNING" ∧ ∀ n ∈ np.Nodes, n.Ready = true := by
    unfold NodePool.AllGreen statusNodePoolStable
    by_cases hs : np.Status = "RUNNING"
    · simp [hs, allReadyLoop_iff]
    · simp [hs]
  refine ⟨key, ?_, ?_⟩
  · intro hs
    rw [Bool.eq_false_iff]
    intro h
    exact hs (key.mp h).1
  · rintro ⟨n, hn, hr⟩
    rw [Bool.eq_false_iff]
    intro h
    have := (key.mp h).2 n hn
    rw [hr] at this
    cases this

/-! ## The nodes of a pool -/

theorem relateNodes_foldl (np : NodePool) (nodes acc : List Node) :
    nodes.foldl (fun ret n => if n.NodePool = np.Name then ret ++ [n] else ret) acc
      = acc ++ nodes.filter (fun n => decide (n.NodePool = np.Name)) := by
  induction nodes generalizing acc with
  | nil => simp
  | cons a nodes ih =>
    rw [List.foldl_cons, ih]
    by_cases h : a.NodePool = np.Name <;> simp [h, List.filter_cons]

/-- The node list that `GKEClient.GetNodePool` gives a pool (`gke.go`, line 69)
holds the nodes of the inventory that carry the pool's name. -/
theorem mem_relateNodes (np : NodePool) (nodes : List Node) (n : Node) :
    n ∈ np.relateNodes nodes ↔ n ∈ nodes ∧ n.NodePool = np.Name := by
  unfold NodePool.relateNodes
  rw [relateNodes_foldl]
  simp [List.mem_filter]

/-! ## The purge of one group -/

theorem fetchLoop_calls {σ : Type} (kaas : KaasProvider σ) (cluster : String) (nodes : List Node)
    (nep : PoolIndex) (group : List String) (acc : List NodePool) (cs : List Call) (s : σ) :
    ∃ extra, (fetchLoop kaas cluster nodes nep group acc cs s).2.1 = cs ++ extra ∧
      ∀ c ∈ extra, ∃ pool, c = Call.GetNodePool cluster pool nodes := by
  induction group generalizing acc cs s with
  | nil => exact ⟨[], by simp [fetchLoop], by simp⟩
  | cons pool rest ih =>
    unfold fetchLoop
    cases hlook : nep.lookup pool with
    | none => exact ih acc cs s
    | some v =>
      simp only
      rcases hget : kaas.GetNodePool cluster pool nodes s with ⟨res, s1⟩
      cases res with
      | error err =>
        refine ⟨[Call.GetNodePool cluster pool nodes], rfl, ?_⟩
        intro c hc
        exact ⟨pool, List.mem_singleton.mp hc⟩
      | ok np =>
        simp only
        obtain ⟨extra, hcalls, hall⟩ :=
          ih (acc ++ [np]) (cs ++ [Call.GetNodePool cluster pool nodes]) s1
        refine ⟨Call.GetNodePool cluster pool nodes :: extra, ?_, ?_⟩
        · rw [hcalls]
          simp
        · intro c hc
          rcases List.mem_cons.mp hc with rfl | hc
          · exact ⟨pool, rfl⟩
          · exact hall c hc

/-- The calls made by a fetch loop that starts with an empty trace are calls of
`GetNodePool`. -/
theorem fetch_calls_getNodePool {σ : Type} {kaas : KaasProvider σ} {cluster : String}
    {nodes : List Node} {nep : PoolIndex} {group : List String} {s : σ}
    {res : Except String (List NodePool)} {cs : List Call} {s1 : σ}
    (hfetch : fetchLoop kaas cluster nodes nep group [] [] s = (res, cs, s1)) :
    ∀ c ∈ cs, ∃ pool, c = Call.GetNodePool cluster pool nodes := by
  obtain ⟨extra, hcalls, hall⟩ := fetchLoop_calls kaas cluster nodes nep group [] [] s
  rw [hfetch] at hcalls
  simp only [List.nil_append] at hcalls
  rw [hcalls]
  exact hall

theorem readyLoop_foldl (nps : List NodePool) (b : Bool) :
    nps.foldl (fun ready np => if !np.AllGreen then false else ready) b
      = (b && nps.all (fun np => np.AllGreen)) := by
  induction nps generalizing b with
  | nil => simp
  | cons a nps ih =>
    rw [List.foldl_cons, ih]
    cases hA : a.AllGreen <;> simp [hA]

theorem readyLoop_iff (nps : List NodePool) :
    readyLoop nps = true ↔ ∀ np ∈ nps, np.AllGreen = true := by
  unfold readyLoop
  rw [readyLoop_foldl]
  simp

theorem getPoolWithPreemptible_eq (nps : List NodePool) (b : Bool) :
    (NodePoolGroup.mk nps).GetPoolWithPreemptible b
      = (firstPool b nps, (firstPool b nps).isSome) := by
  unfold NodePoolGroup.GetPoolWithPreemptible firstPool
  simp only
  induction nps with
  | nil => rfl
  | cons a nps ih =>
    unfold poolWithPreemptibleLoop
    by_cases h : a.Preemptible = b
    · simp [h, List.find?_cons]
    · have hb : (a.Preemptible == b) = false := by simpa using h
      rw [if_neg h, ih, List.find?_cons, hb]

theorem purgeInGroup_of_fetch {σ : Type} (p : Thyella σ) (ord : MapOrder) (cluster : String)
    (group : List String) (nodes : List Node) (nep : PoolIndex) (s : σ)
    (nps : List NodePool) (cs : List Call) (s1 : σ)
    (hfetch : fetchLoop p.KaasClient cluster nodes nep group [] [] s = (.ok nps, cs, s1)) :
    p.purgeInGroup ord cluster group nodes nep s = purgeDecision p ord cluster ⟨nps⟩ cs s1 := by
  unfold Thyella.purgeInGroup
  rw [hfetch]

theorem purgeAndDelete_success {σ : Type} (p : Thyella σ) (cluster : String)
    (target : Option Node) (cs : List Call) (s s2 s3 : σ)
    (hpurge : p.K8sClient.Purge target s = (none, s2))
    (hdelete : p.KaasClient.DeleteInstance cluster target s2 = (none, s3)) :
    purgeAndDelete p cluster target cs s
      = ⟨Outcome.ret target true none,
          cs ++ [Call.Purge target, Call.DeleteInstance cluster target], s3⟩ := by
  unfold purgeAndDelete
  rw [hpurge]
  simp only
  rw [hdelete]

/-- The trace of the purge sequence: the calls made before, one call of `Purge`
on the target and at most one call of `DeleteInstance` on the target.  A node
is returned only if it is the target. -/
theorem purgeAndDelete_trace {σ : Type} (p : Thyella σ) (cluster : String)
    (target : Option Node) (cs : List Call) (s : σ) :
    ((purgeAndDelete p cluster target cs s).calls = cs ++ [Call.Purge target] ∨
      (purgeAndDelete p cluster target cs s).calls
        = cs ++ [Call.Purge target, Call.DeleteInstance cluster target]) ∧
    (∀ n ok err, (purgeAndDelete p cluster target cs s).out = Outcome.ret (some n) ok err →
      target = some n) := by
  unfold purgeAndDelete
  rcases hp : p.K8sClient.Purge target s with ⟨e1, s1⟩
  cases e1 with
  | some err =>
    cases target with
    | none => exact ⟨Or.inl rfl, fun n ok e h => by cases h⟩
    | some t => exact ⟨Or.inl rfl, fun n ok e h => by cases h⟩
  | none =>
    simp only
    rcases hd : p.KaasClient.DeleteInstance cluster target s1 with ⟨e2, s2⟩
    cases e2 with
    | some err =>
      cases target with
      | none => exact ⟨Or.inr rfl, fun n ok e h => by cases h⟩
      | some t => exact ⟨Or.inr rfl, fun n ok e h => by cases h⟩
    | none =>
      refine ⟨Or.inr rfl, fun n ok e h => ?_⟩
      simp only [Outcome.ret.injEq] at h
      exact h.1

theorem purgeDecision_non_preemptible {σ : Type} (p : Thyella σ) (ord : MapOrder)
    (cluster : String) (nps : List NodePool) (cs : List Call) (s : σ)
    (hgreen : ∀ q ∈ nps, q.AllGreen = true) (np : NodePool)
    (hfirst : firstPool false nps = some np) (hmin : np.IsMinimumNodes = false) :
    purgeDecision p ord cluster ⟨nps⟩ cs s
      = purgeAndDelete p cluster (np.GetMaxAgeNodeWithBalance ord).1 cs s := by
  unfold purgeDecision
  simp only [(readyLoop_iff nps).mpr hgreen, getPoolWithPreemptible_eq, hfirst,
    Option.isSome_some, hmin, Bool.not_true, Bool.not_false, Bool.false_eq_true, if_false,
    if_true]

theorem purgeDecision_preemptible {σ : Type} (p : Thyella σ) (ord : MapOrder)
    (cluster : String) (nps : List NodePool) (cs : List Call) (s : σ)
    (hgreen : ∀ q ∈ nps, q.AllGreen = true)
    (hfloor : firstPool false nps = none ∨
      ∃ np, firstPool false nps = some np ∧ np.IsMinimumNodes = true) :
    purgeDecision p ord cluster ⟨nps⟩ cs s = purgePreemptible p cluster ⟨nps⟩ cs s := by
  unfold purgeDecision
  rcases hfloor with hnone | ⟨np, hfirst, hmin⟩
  · simp only [(readyLoop_iff nps).mpr hgreen, getPoolWithPreemptible_eq, hnone,
      Option.isSome_none, Bool.not_true, Bool.false_eq_true, if_false]
  · simp only [(readyLoop_iff nps).mpr hgreen, getPoolWithPreemptible_eq, hfirst,
      Option.isSome_some, hmin, Bool.not_true, Bool.false_eq_true, if_false]

theorem getMaxAgeNode_of_nodes {q : NodePool} (hne : q.Nodes ≠ []) :
    ∃ n, n ∈ q.Nodes ∧ q.GetMaxAgeNode = (some n, true) := by
  rcases maxAgeLoop_spec q.Nodes with ⟨h0, -⟩ | ⟨n, hn, hfo⟩
  · exact absurd h0 hne
  · exact ⟨n, firstOldest_mem hfo, by simp [NodePool.GetMaxAgeNode, hn]⟩

theorem purgePreemptible_some {σ : Type} (p : Thyella σ) (cluster : String)
    (nps : List NodePool) (cs : List Call) (s : σ) (q : NodePool)
    (hfirst : firstPool true nps = some q) (hne : q.Nodes ≠ []) :
    purgePreemptible p cluster ⟨nps⟩ cs s
      = purgeAndDelete p cluster (q.GetMaxAgeNode).1 cs s := by
  obtain ⟨n, -, hn⟩ := getMaxAgeNode_of_nodes hne
  unfold purgePreemptible
  simp only [getPoolWithPreemptible_eq, hfirst, Option.isSome_some, hn]

theorem purgePreemptible_none {σ : Type} (p : Thyella σ) (cluster : String)
    (nps : List NodePool) (cs : List Call) (s : σ)
    (hnone : firstPool true nps = none ∨ ∃ q, firstPool true nps = some q ∧ q.Nodes = []) :
    purgePreemptible p cluster ⟨nps⟩ cs s = ⟨Outcome.ret none false none, cs, s⟩ := by
  unfold purgePreemptible
  rcases hnone with h | ⟨q, hfirst, hq⟩
  · simp only [getPoolWithPreemptible_eq, h, Option.isSome_none]
  · have hres : q.GetMaxAgeNode = (none, false) := by
      simp [NodePool.GetMaxAgeNode, hq, maxAgeLoop]
    simp only [getPoolWithPreemptible_eq, hfirst, Option.isSome_some, hres]

theorem balance_target_mem (ord : MapOrder) (np : NodePool) (n : Node)
    (h : (np.GetMaxAgeNodeWithBalance ord).1 = some n) : n ∈ np.Nodes := by
  by_cases hne : np.Nodes = []
  · have : (np.GetMaxAgeNodeWithBalance ord).1 = none := by
      have hv : ord.visit (nodeEachZone np.Nodes) = [] := by
        have := ord.perm (nodeEachZone np.Nodes)
        rw [hne] at this ⊢
        exact List.Perm.eq_nil this
      simp [NodePool.GetMaxAgeNodeWithBalance, hv, maxNumZone, maxAgeLoop]
    rw [this] at h
    cases h
  · obtain ⟨e, m, -, hval, hr, hm, hfo⟩ := balance_core ord np.Nodes hne
    have hres : (np.GetMaxAgeNodeWithBalance ord).1 = some m := by
      simp only [NodePool.GetMaxAgeNodeWithBalance, hr, hm]
    rw [hres] at h
    cases h
    exact (mem_zoneNodes.mp (hval ▸ firstOldest_mem hfo)).1

theorem balance_target_of_nodes (ord : MapOrder) (np : NodePool) (hne : np.Nodes ≠ []) :
    ∃ n ∈ np.Nodes, (np.GetMaxAgeNodeWithBalance ord).1 = some n := by
  obtain ⟨e, m, -, hval, hr, hm, hfo⟩ := balance_core ord np.Nodes hne
  refine ⟨m, (mem_zoneNodes.mp (hval ▸ firstOldest_mem hfo)).1, ?_⟩
  simp only [NodePool.GetMaxAgeNodeWithBalance, hr, hm]

theorem not_purge_mem_fetch {cluster : String} {nodes : List Node} {cs : List Call}
    (hcs : ∀ c ∈ cs, ∃ pool, c = Call.GetNodePool cluster pool nodes) (x : Option Node) :
    Call.Purge x ∉ cs := by
  intro hx
  obtain ⟨pool, hpool⟩ := hcs _ hx
  cases hpool

/-- Claim C1.  When the fetch loop of `purgeInGroup` has fetched the pools of
the group and at least one of them has `AllGreen` false, `purgeInGroup` returns
no node, `ok = false` and a nil error, and its trace holds no call of
`K8sClient.Purge` and no call of `KaasClient.DeleteInstance`: the trace is the
trace of the fetch loop, which holds calls of `GetNodePool` only. -/
theorem purgeInGroup_unhealthy {σ : Type} (p : Thyella σ) (ord : MapOrder) (cluster : String)
    (group : List String) (nodes : List Node) (nep : PoolIndex) (s : σ)
    (nps : List NodePool) (cs : List Call) (s1 : σ)
    (hfetch : fetchLoop p.KaasClient cluster nodes nep group [] [] s = (.ok nps, cs, s1))
    (hbad : ∃ np ∈ nps, np.AllGreen = false) :
    (p.purgeInGroup ord cluster group nodes nep s).out = Outcome.ret none false none ∧
    (p.purgeInGroup ord cluster group nodes nep s).calls = cs ∧
    (∀ n, Call.Purge n ∉ (p.purgeInGroup ord cluster group nodes nep s).calls) ∧
    (∀ c n, Call.DeleteInstance c n ∉ (p.purgeInGroup ord cluster group nodes nep s).calls) := by
  have hready : readyLoop nps = false := by
    rw [Bool.eq_false_iff]
    intro h
    obtain ⟨np, hnp, hfalse⟩ := hbad
    have := (readyLoop_iff nps).mp h np hnp
    rw [hfalse] at this
    cases this
  have hrun : p.purgeInGroup ord cluster group nodes nep s
      = ⟨Outcome.ret none false none, cs, s1⟩ := by
    rw [purgeInGroup_of_fetch p ord cluster group nodes nep s nps cs s1 hfetch]
    simp [purgeDecision, hready]
  have hcs := fetch_calls_getNodePool hfetch
  rw [hrun]
  refine ⟨rfl, rfl, ?_, ?_⟩
  · intro n hn
    obtain ⟨pool, hpool⟩ := hcs _ hn
    cases hpool
  · intro c n hn
    obtain ⟨pool, hpool⟩ := hcs _ hn
    cases hpool

/-- The third case of `TestPurgeInGroup` ("should non purge when unhealthy
node"): the pool `pa` holds a node that is not ready, and nothing is purged. -/
theorem purgeInGroup_unhealthy_witness :
    (∃ np ∈ [unhealthyPa, unhealthyPb], np.AllGreen = false) ∧
    ((stubThyella [unhealthyPa, unhealthyPb] [nodeA, nodeB, nodeC]).purgeInGroup
        MapOrder.forward "cluster" ["pa", "pb"] [nodeA, nodeB, nodeC] testIndex ()).out
      = Outcome.ret none false none :=
  ⟨⟨unhealthyPa, by decide, by decide⟩,
    (purgeInGroup_unhealthy (stubThyella [unhealthyPa, unhealthyPb] [nodeA, nodeB, nodeC])
      MapOrder.forward "cluster" ["pa", "pb"] [nodeA, nodeB, nodeC] testIndex ()
      [unhealthyPa, unhealthyPb]
      [Call.GetNodePool "cluster" "pa" [nodeA, nodeB, nodeC],
        Call.GetNodePool "cluster" "pb" [nodeA, nodeB, nodeC]] ()
      rfl ⟨unhealthyPa, by decide, by decide⟩).1⟩

/-- Claim C2.  When the fetched pools of the group are all `AllGreen`, the
first non-preemptible pool in group order has `IsMinimumNodes` false, and
`K8sClient.Purge` and `KaasClient.DeleteInstance` succeed on the target, then
`purgeInGroup` calls `Purge` once, on the node that `GetMaxAgeNodeWithBalance`
returns on that pool, calls `DeleteInstance` on the same node, and returns it
with `ok = true`.  The node is taken from the non-preemptible pool, and no node
of a preemptible pool of another name is purged, the nodes of every pool
carrying the name of their pool. -/
theorem purgeInGroup_non_preemptible {σ : Type} (p : Thyella σ) (ord : MapOrder)
    (cluster : String) (group : List String) (nodes : List Node) (nep : PoolIndex) (s : σ)
    (nps : List NodePool) (cs : List Call) (s1 : σ)
    (hfetch : fetchLoop p.KaasClient cluster nodes nep group [] [] s = (.ok nps, cs, s1))
    (hgreen : ∀ q ∈ nps, q.AllGreen = true)
    (np : NodePool) (hfirst : firstPool false nps = some np)
    (hmin : np.IsMinimumNodes = false)
    (s2 s3 : σ)
    (hpurge : p.K8sClient.Purge (np.GetMaxAgeNodeWithBalance ord).1 s1 = (none, s2))
    (hdelete : p.KaasClient.DeleteInstance cluster (np.GetMaxAgeNodeWithBalance ord).1 s2
      = (none, s3)) :
    p.purgeInGroup ord cluster group nodes nep s
      = ⟨Outcome.ret (np.GetMaxAgeNodeWithBalance ord).1 true none,
          cs ++ [Call.Purge (np.GetMaxAgeNodeWithBalance ord).1,
            Call.DeleteInstance cluster (np.GetMaxAgeNodeWithBalance ord).1], s3⟩ ∧
    (∀ c ∈ cs, ∃ pool, c = Call.GetNodePool cluster pool nodes) ∧
    (∀ n, (np.GetMaxAgeNodeWithBalance ord).1 = some n → n ∈ np.Nodes) ∧
    (∀ q ∈ nps, q.Preemptible = true → q.Name ≠ np.Name →
      (∀ m ∈ q.Nodes, m.NodePool = q.Name) → (∀ m ∈ np.Nodes, m.NodePool = np.Name) →
      ∀ m ∈ q.Nodes, Call.Purge (some m) ∉
        (p.purgeInGroup ord cluster group nodes nep s).calls) := by
  have hcs := fetch_calls_getNodePool hfetch
  have hrun : p.purgeInGroup ord cluster group nodes nep s
      = ⟨Outcome.ret (np.GetMaxAgeNodeWithBalance ord).1 true none,
          cs ++ [Call.Purge (np.GetMaxAgeNodeWithBalance ord).1,
            Call.DeleteInstance cluster (np.GetMaxAgeNodeWithBalance ord).1], s3⟩ := by
    rw [purgeInGroup_of_fetch p ord cluster group nodes nep s nps cs s1 hfetch,
      purgeDecision_non_preemptible p ord cluster nps cs s1 hgreen np hfirst hmin,
      purgeAndDelete_success p cluster _ cs s1 s2 s3 hpurge hdelete]
  refine ⟨hrun, hcs, fun n hn => balance_target_mem ord np n hn, ?_⟩
  intro q _ _ hname hq hnp m hm hcall
  rw [hrun] at hcall
  simp only [List.mem_append, List.mem_cons, List.mem_singleton, List.not_mem_nil,
    or_false] at hcall
  rcases hcall with hc | hc | hc
  · exact not_purge_mem_fetch hcs _ hc
  · simp only [Call.Purge.injEq] at hc
    have hmem := balance_target_mem ord np m hc.symm
    exact hname ((hq m hm).symm.trans (hnp m hmem))
  · cases hc

/-- The first case of `TestPurgeInGroup` ("should purge 'nodeA' when the
non-preemptible pool is enough nodes"): `nodeA` is purged, its instance is
deleted, and it is returned. -/
theorem purgeInGroup_non_preemptible_witness :
    (∀ q ∈ [enoughPa, enoughPb], q.AllGreen = true) ∧
    firstPool false [enoughPa, enoughPb] = some enoughPa ∧
    enoughPa.IsMinimumNodes = false ∧
    (stubThyella [enoughPa, enoughPb] [nodeA, nodeB, nodeC]).purgeInGroup
        MapOrder.forward "cluster" ["pa", "pb"] [nodeA, nodeB, nodeC] testIndex ()
      = ⟨Outcome.ret (some nodeA) true none,
          [Call.GetNodePool "cluster" "pa" [nodeA, nodeB, nodeC],
            Call.GetNodePool "cluster" "pb" [nodeA, nodeB, nodeC],
            Call.Purge (some nodeA), Call.DeleteInstance "cluster" (some nodeA)], ()⟩ :=
  ⟨by decide, by decide, by decide,
    (purgeInGroup_non_preemptible (stubThyella [enoughPa, enoughPb] [nodeA, nodeB, nodeC])
      MapOrder.forward "cluster" ["pa", "pb"] [nodeA, nodeB, nodeC] testIndex ()
      [enoughPa, enoughPb]
      [Call.GetNodePool "cluster" "pa" [nodeA, nodeB, nodeC],
        Call.GetNodePool "cluster" "pb" [nodeA, nodeB, nodeC]] ()
      rfl (by decide) enoughPa (by decide) (by decide) () () rfl rfl).1⟩

/-- Claim C3.  When the fetched pools of the group are all `AllGreen` and the
group has no non-preemptible pool, or its first non-preemptible pool has
`IsMinimumNodes` true: if the first preemptible pool in group order has a node
and `K8sClient.Purge` and `KaasClient.DeleteInstance` succeed on the target,
`purgeInGroup` calls `Purge` once, on the node that `GetMaxAgeNode` returns on
that pool, calls `DeleteInstance` on it and returns it with `ok = true`; if
there is no preemptible pool, or it has no node, no call is made beyond the
fetch and the result is `(nil, false, nil)`. -/
theorem purgeInGroup_preemptible {σ : Type} (p : Thyella σ) (ord : MapOrder)
    (cluster : String) (group : List String) (nodes : List Node) (nep : PoolIndex) (s : σ)
    (nps : List NodePool) (cs : List Call) (s1 : σ)
    (hfetch : fetchLoop p.KaasClient cluster nodes nep group [] [] s = (.ok nps, cs, s1))
    (hgreen : ∀ q ∈ nps, q.AllGreen = true)
    (hfloor : firstPool false nps = none ∨
      ∃ np, firstPool false nps = some np ∧ np.IsMinimumNodes = true) :
    (∀ q, firstPool true nps = some q → q.Nodes ≠ [] → ∀ s2 s3 : σ,
      p.K8sClient.Purge (q.GetMaxAgeNode).1 s1 = (none, s2) →
      p.KaasClient.DeleteInstance cluster (q.GetMaxAgeNode).1 s2 = (none, s3) →
      (∃ n ∈ q.Nodes, (q.GetMaxAgeNode).1 = some n) ∧
      p.purgeInGroup ord cluster group nodes nep s
        = ⟨Outcome.ret (q.GetMaxAgeNode).1 true none,
            cs ++ [Call.Purge (q.GetMaxAgeNode).1,
              Call.DeleteInstance cluster (q.GetMaxAgeNode).1], s3⟩) ∧
    ((firstPool true nps = none ∨ ∃ q, firstPool true nps = some q ∧ q.Nodes = []) →
      p.purgeInGroup ord cluster group nodes nep s = ⟨Outcome.ret none false none, cs, s1⟩) ∧
    (∀ c ∈ cs, ∃ pool, c = Call.GetNodePool cluster pool nodes) := by
  have hdec : p.purgeInGroup ord cluster group nodes nep s
      = purgePreemptible p cluster ⟨nps⟩ cs s1 := by
    rw [purgeInGroup_of_fetch p ord cluster group nodes nep s nps cs s1 hfetch,
      purgeDecision_preemptible p ord cluster nps cs s1 hgreen hfloor]
  refine ⟨?_, ?_, fetch_calls_getNodePool hfetch⟩
  · intro q hq hne s2 s3 hpurge hdelete
    obtain ⟨n, hn, hres⟩ := getMaxAgeNode_of_nodes hne
    refine ⟨⟨n, hn, by rw [hres]⟩, ?_⟩
    rw [hdec, purgePreemptible_some p cluster nps cs s1 q hq hne,
      purgeAndDelete_success p cluster _ cs s1 s2 s3 hpurge hdelete]
  · intro hnone
    rw [hdec, purgePreemptible_none p cluster nps cs s1 hnone]

/-- The second case of `TestPurgeInGroup` ("should purge 'nodeB' when the
non-preemptible pool is minimum nodes"): `nodeB`, of the preemptible pool, is
purged, its instance is deleted, and it is returned. -/
theorem purgeInGroup_preemptible_witness :
    (∀ q ∈ [minimumPa, minimumPb], q.AllGreen = true) ∧
    (firstPool false [minimumPa, minimumPb] = some minimumPa ∧
      minimumPa.IsMinimumNodes = true) ∧
    firstPool true [minimumPa, minimumPb] = some minimumPb ∧
    (stubThyella [minimumPa, minimumPb] [nodeA, nodeB, nodeC]).purgeInGroup
        MapOrder.forward "cluster" ["pa", "pb"] [nodeA, nodeB, nodeC] testIndex ()
      = ⟨Outcome.ret (some nodeB) true none,
          [Call.GetNodePool "cluster" "pa" [nodeA, nodeB, nodeC],
            Call.GetNodePool "cluster" "pb" [nodeA, nodeB, nodeC],
            Call.Purge (some nodeB), Call.DeleteInstance "cluster" (some nodeB)], ()⟩ :=
  ⟨by decide, ⟨by decide, by decide⟩, by decide,
    ((purgeInGroup_preemptible (stubThyella [minimumPa, minimumPb] [nodeA, nodeB, nodeC])
      MapOrder.forward "cluster" ["pa", "pb"] [nodeA, nodeB, nodeC] testIndex ()
      [minimumPa, minimumPb]
      [Call.GetNodePool "cluster" "pa" [nodeA, nodeB, nodeC],
        Call.GetNodePool "cluster" "pb" [nodeA, nodeB, nodeC]] ()
      rfl (by decide) (Or.inr ⟨minimumPa, by decide, by decide⟩)).1
        minimumPb (by decide) (by decide) () () rfl rfl).2⟩

/-- Claim C4, as the code has it.  Priority law: when the fetched pools of the
group are all `AllGreen` and the floor of the first non-preemptible pool in
group order (`MinNodeCount` times the number of zones) is a value of Go's
`int`, then, whatever the collaborators answer: if that pool is above its floor
(its count of ready nodes is greater than the floor), `purgeInGroup` calls
`Purge` exactly once, on the node that `GetMaxAgeNodeWithBalance` returns on
the non-preemptible pool, whether or not the group also has a preemptible pool;
that node belongs to the non-preemptible pool, and so does every node returned.
If that pool is at or below its floor, the node is taken from the first
preemptible pool instead: when that pool has a node, `Purge` is called exactly
once, on the node of that pool that `GetMaxAgeNode` returns, and no other node
is returned; when the group has no preemptible pool, or it has no node, nothing
is purged. -/
theorem purgeInGroup_priority {σ : Type} (p : Thyella σ) (ord : MapOrder)
    (cluster : String) (group : List String) (nodes : List Node) (nep : PoolIndex) (s : σ)
    (nps : List NodePool) (cs : List Call) (s1 : σ)
    (hfetch : fetchLoop p.KaasClient cluster nodes nep group [] [] s = (.ok nps, cs, s1))
    (hgreen : ∀ q ∈ nps, q.AllGreen = true)
    (np : NodePool) (hfirst : firstPool false nps = some np)
    (hfit : FitsInt (floorOf np)) :
    (floorOf np < readyCount np →
      ((p.purgeInGroup ord cluster group nodes nep s).calls
          = cs ++ [Call.Purge (np.GetMaxAgeNodeWithBalance ord).1] ∨
        (p.purgeInGroup ord cluster group nodes nep s).calls
          = cs ++ [Call.Purge (np.GetMaxAgeNodeWithBalance ord).1,
              Call.DeleteInstance cluster (np.GetMaxAgeNodeWithBalance ord).1]) ∧
      (∀ n, (np.GetMaxAgeNodeWithBalance ord).1 = some n → n ∈ np.Nodes) ∧
      (np.Nodes ≠ [] → ∃ n ∈ np.Nodes, (np.GetMaxAgeNodeWithBalance ord).1 = some n) ∧
      (∀ n ok err, (p.purgeInGroup ord cluster group nodes nep s).out
          = Outcome.ret (some n) ok err → n ∈ np.Nodes)) ∧
    (readyCount np ≤ floorOf np →
      (∀ q, firstPool true nps = some q → q.Nodes ≠ [] →
        ∃ n ∈ q.Nodes, (q.GetMaxAgeNode).1 = some n ∧
          ((p.purgeInGroup ord cluster group nodes nep s).calls
              = cs ++ [Call.Purge (some n)] ∨
            (p.purgeInGroup ord cluster group nodes nep s).calls
              = cs ++ [Call.Purge (some n), Call.DeleteInstance cluster (some n)]) ∧
          (∀ m ok err, (p.purgeInGroup ord cluster group nodes nep s).out
              = Outcome.ret (some m) ok err → m = n)) ∧
      ((firstPool true nps = none ∨ ∃ q, firstPool true nps = some q ∧ q.Nodes = []) →
        p.purgeInGroup ord cluster group nodes nep s
          = ⟨Outcome.ret none false none, cs, s1⟩)) ∧
    (∀ c ∈ cs, ∃ pool, c = Call.GetNodePool cluster pool nodes) := by
  refine ⟨?_, ?_, fetch_calls_getNodePool hfetch⟩
  · intro habove
    have hmin : np.IsMinimumNodes = false :=
      (isMinimumNodes_false_of_fits np hfit).mpr habove
    have hrun : p.purgeInGroup ord cluster group nodes nep s
        = purgeAndDelete p cluster (np.GetMaxAgeNodeWithBalance ord).1 cs s1 := by
      rw [purgeInGroup_of_fetch p ord cluster group nodes nep s nps cs s1 hfetch,
        purgeDecision_non_preemptible p ord cluster nps cs s1 hgreen np hfirst hmin]
    have htrace := purgeAndDelete_trace p cluster (np.GetMaxAgeNodeWithBalance ord).1 cs s1
    rw [hrun]
    refine ⟨htrace.1, fun n hn => balance_target_mem ord np n hn,
      fun hne => balance_target_of_nodes ord np hne, ?_⟩
    intro n ok err hout
    exact balance_target_mem ord np n (htrace.2 n ok err hout)
  · intro hbelow
    have hmin : np.IsMinimumNodes = true := (isMinimumNodes_of_fits np hfit).mpr hbelow
    have hdec : p.purgeInGroup ord cluster group nodes nep s
        = purgePreemptible p cluster ⟨nps⟩ cs s1 := by
      rw [purgeInGroup_of_fetch p ord cluster group nodes nep s nps cs s1 hfetch,
        purgeDecision_preemptible p ord cluster nps cs s1 hgreen
          (Or.inr ⟨np, hfirst, hmin⟩)]
    refine ⟨?_, ?_⟩
    · intro q hq hne
      obtain ⟨n, hn, hres⟩ := getMaxAgeNode_of_nodes hne
      have hrun : p.purgeInGroup ord cluster group nodes nep s
          = purgeAndDelete p cluster (some n) cs s1 := by
        rw [hdec, purgePreemptible_some p cluster nps cs s1 q hq hne, hres]
      have htrace := purgeAndDelete_trace p cluster (some n) cs s1
      rw [hrun]
      refine ⟨n, hn, by rw [hres], htrace.1, ?_⟩
      intro m ok err hout
      have := htrace.2 m ok err hout
      simp only [Option.some.injEq] at this
      exact this.symm
    · intro hnone
      rw [hdec, purgePreemptible_none p cluster nps cs s1 hnone]

/-- The first case of `TestPurgeInGroup`: the non-preemptible pool `pa` holds
one ready node over a floor of zero, the group has the preemptible pool `pb`,
and the node selected is `nodeA`, a node of `pa`. -/
theorem purgeInGroup_priority_witness :
    FitsInt (floorOf enoughPa) ∧
    floorOf enoughPa < readyCount enoughPa ∧
    firstPool true [enoughPa, enoughPb] = some enoughPb ∧
    (enoughPa.GetMaxAgeNodeWithBalance MapOrder.forward).1 = some nodeA ∧
    nodeA ∈ enoughPa.Nodes :=
  ⟨⟨by decide, by decide⟩, by decide, by decide, by decide,
    ((purgeInGroup_priority (stubThyella [enoughPa, enoughPb] [nodeA, nodeB, nodeC])
      MapOrder.forward "cluster" ["pa", "pb"] [nodeA, nodeB, nodeC] testIndex ()
      [enoughPa, enoughPb]
      [Call.GetNodePool "cluster" "pa" [nodeA, nodeB, nodeC],
        Call.GetNodePool "cluster" "pb" [nodeA, nodeB, nodeC]] ()
      rfl (by decide) enoughPa (by decide) ⟨by decide, by decide⟩).1 (by decide)).2.1
        nodeA (by decide)⟩

/-- The claim C4 fails on the code.  In the second case of `TestPurgeInGroup`
the group is healthy, its non-preemptible pool `pa` is below its floor (one
ready node, `MinNodeCount` 2, one zone) and `pb` is preemptible; the node that
`purgeInGroup` purges and returns is `nodeB`, which belongs to the preemptible
pool and not to the non-preemptible pool. -/
theorem priority_below_floor_purges_preemptible :
    (∀ q ∈ [minimumPa, minimumPb], q.AllGreen = true) ∧
    minimumPa.Preemptible = false ∧
    readyCount minimumPa < minimumPa.MinNodeCount * (minimumPa.ZoneURLs.length : Int) ∧
    minimumPb.Preemptible = true ∧
    ((stubThyella [minimumPa, minimumPb] [nodeA, nodeB, nodeC]).purgeInGroup
        MapOrder.forward "cluster" ["pa", "pb"] [nodeA, nodeB, nodeC] testIndex ()).out
      = Outcome.ret (some nodeB) true none ∧
    ((stubThyella [minimumPa, minimumPb] [nodeA, nodeB, nodeC]).purgeInGroup
        MapOrder.forward "cluster" ["pa", "pb"] [nodeA, nodeB, nodeC] testIndex ()).calls
      = [Call.GetNodePool "cluster" "pa" [nodeA, nodeB, nodeC],
          Call.GetNodePool "cluster" "pb" [nodeA, nodeB, nodeC],
          Call.Purge (some nodeB), Call.DeleteInstance "cluster" (some nodeB)] ∧
    nodeB ∈ minimumPb.Nodes ∧ nodeB ∉ minimumPa.Nodes := by
  decide

/-- Claim C5, as the code has it.  Floor guard: when the fetched pools of the
group are all `AllGreen`, every node on which `purgeInGroup` calls `Purge` is
selected either from the first non-preemptible pool in group order, and then
`IsMinimumNodes` is false for that pool, or from the first preemptible pool in
group order, and then it is a node of that pool; so no node is selected from a
non-preemptible pool for which `IsMinimumNodes` is true.  When the group has no
preemptible pool and its first non-preemptible pool has `IsMinimumNodes` true,
no call is made beyond the fetch and the result is `(nil, false, nil)`. -/
theorem purgeInGroup_floor_guard {σ : Type} (p : Thyella σ) (ord : MapOrder)
    (cluster : String) (group : List String) (nodes : List Node) (nep : PoolIndex) (s : σ)
    (nps : List NodePool) (cs : List Call) (s1 : σ)
    (hfetch : fetchLoop p.KaasClient cluster nodes nep group [] [] s = (.ok nps, cs, s1))
    (hgreen : ∀ q ∈ nps, q.AllGreen = true) :
    (∀ x, Call.Purge x ∈ (p.purgeInGroup ord cluster group nodes nep s).calls →
      (∃ np, firstPool false nps = some np ∧ np.IsMinimumNodes = false ∧
        x = (np.GetMaxAgeNodeWithBalance ord).1) ∨
      (∃ q n, firstPool true nps = some q ∧ n ∈ q.Nodes ∧ x = some n ∧
        (q.GetMaxAgeNode).1 = some n)) ∧
    (firstPool true nps = none →
      (∀ np, firstPool false nps = some np → np.IsMinimumNodes = true) →
      p.purgeInGroup ord cluster group nodes nep s = ⟨Outcome.ret none false none, cs, s1⟩) := by
  have hcs := fetch_calls_getNodePool hfetch
  have hdec := purgeInGroup_of_fetch p ord cluster group nodes nep s nps cs s1 hfetch
  have hsplit : (∃ np, firstPool false nps = some np ∧ np.IsMinimumNodes = false) ∨
      (firstPool false nps = none ∨
        ∃ np, firstPool false nps = some np ∧ np.IsMinimumNodes = true) := by
    cases hfp : firstPool false nps with
    | none => exact Or.inr (Or.inl rfl)
    | some np =>
      cases hm : np.IsMinimumNodes with
      | false => exact Or.inl ⟨np, rfl, hm⟩
      | true => exact Or.inr (Or.inr ⟨np, rfl, hm⟩)
  have hpurge_mem : ∀ (t x : Option Node),
      Call.Purge x ∈ (purgeAndDelete p cluster t cs s1).calls → x = t := by
    intro t x hx
    rcases (purgeAndDelete_trace p cluster t cs s1).1 with h | h
    · rw [h] at hx
      simp only [List.mem_append, List.mem_singleton] at hx
      rcases hx with hx | hx
      · exact absurd hx (not_purge_mem_fetch hcs x)
      · simp only [Call.Purge.injEq] at hx
        exact hx
    · rw [h] at hx
      simp only [List.mem_append, List.mem_cons, List.mem_singleton, List.not_mem_nil,
        or_false] at hx
      rcases hx with hx | hx | hx
      · exact absurd hx (not_purge_mem_fetch hcs x)
      · simp only [Call.Purge.injEq] at hx
        exact hx
      · cases hx
  refine ⟨?_, ?_⟩
  · intro x hx
    rw [hdec] at hx
    rcases hsplit with ⟨np, hfirst, hmin⟩ | hfloor
    · rw [purgeDecision_non_preemptible p ord cluster nps cs s1 hgreen np hfirst hmin] at hx
      exact Or.inl ⟨np, hfirst, hmin, hpurge_mem _ x hx⟩
    · rw [purgeDecision_preemptible p ord cluster nps cs s1 hgreen hfloor] at hx
      cases hq : firstPool true nps with
      | none =>
        rw [purgePreemptible_none p cluster nps cs s1 (Or.inl hq)] at hx
        exact absurd hx (not_purge_mem_fetch hcs x)
      | some q =>
        by_cases hne : q.Nodes = []
        · rw [purgePreemptible_none p cluster nps cs s1 (Or.inr ⟨q, hq, hne⟩)] at hx
          exact absurd hx (not_purge_mem_fetch hcs x)
        · rw [purgePreemptible_some p cluster nps cs s1 q hq hne] at hx
          obtain ⟨n, hn, hres⟩ := getMaxAgeNode_of_nodes hne
          have hxt := hpurge_mem _ x hx
          rw [hres] at hxt
          exact Or.inr ⟨q, n, rfl, hn, hxt, by rw [hres]⟩
  · intro hnone hall
    have hfloor : firstPool false nps = none ∨
        ∃ np, firstPool false nps = some np ∧ np.IsMinimumNodes = true := by
      cases hfp : firstPool false nps with
      | none => exact Or.inl rfl
      | some np => exact Or.inr ⟨np, rfl, hall np hfp⟩
    rw [hdec, purgeDecision_preemptible p ord cluster nps cs s1 hgreen hfloor,
      purgePreemptible_none p cluster nps cs s1 (Or.inl hnone)]

/-- The third case of `TestRun` ("should non purge when running the minimum
nodes"): the pools `pa` and `pb`, neither of them preemptible, hold one ready
node each with `MinNodeCount` 1 and one zone, and no node is purged. -/
theorem purgeInGroup_floor_guard_witness :
    (∀ q ∈ [floorPa, floorPb], q.AllGreen = true) ∧
    floorPa.IsMinimumNodes = true ∧ floorPb.IsMinimumNodes = true ∧
    (stubThyella [floorPa, floorPb] [runNodeA, runNodeB, runNodeC]).purgeInGroup
        MapOrder.forward "cluster" ["pa", "pb"] [runNodeA, runNodeB, runNodeC] runIndex ()
      = ⟨Outcome.ret none false none,
          [Call.GetNodePool "cluster" "pa" [runNodeA, runNodeB, runNodeC],
            Call.GetNodePool "cluster" "pb" [runNodeA, runNodeB, runNodeC]], ()⟩ :=
  ⟨by decide, by decide, by decide,
    (purgeInGroup_floor_guard (stubThyella [floorPa, floorPb] [runNodeA, runNodeB, runNodeC])
      MapOrder.forward "cluster" ["pa", "pb"] [runNodeA, runNodeB, runNodeC] runIndex ()
      [floorPa, floorPb]
      [Call.GetNodePool "cluster" "pa" [runNodeA, runNodeB, runNodeC],
        Call.GetNodePool "cluster" "pb" [runNodeA, runNodeB, runNodeC]] ()
      rfl (by decide)).2 (by decide) (by decide)⟩

/-- The claim C5 fails on the code.  With a non-preemptible pool `pa` and a
preemptible pool `pb` that each hold one ready node with `MinNodeCount` 1 and
one zone, the group is healthy and `IsMinimumNodes` is true for both pools, yet
`purgeInGroup` calls `Purge` on the node of `pb`, deletes its instance and
returns it. -/
theorem floor_guard_skips_preemptible :
    (∀ q ∈ [floorPa, floorPbPreemptible], q.AllGreen = true) ∧
    floorPa.Preemptible = false ∧ floorPbPreemptible.Preemptible = true ∧
    floorPa.IsMinimumNodes = true ∧ floorPbPreemptible.IsMinimumNodes = true ∧
    runNodeB ∈ floorPbPreemptible.Nodes ∧
    ((stubThyella [floorPa, floorPbPreemptible] [runNodeA, runNodeB, runNodeC]).purgeInGroup
        MapOrder.forward "cluster" ["pa", "pb"] [runNodeA, runNodeB, runNodeC] runIndex ()).out
      = Outcome.ret (some runNodeB) true none ∧
    ((stubThyella [floorPa, floorPbPreemptible] [runNodeA, runNodeB, runNodeC]).purgeInGroup
        MapOrder.forward "cluster" ["pa", "pb"] [runNodeA, runNodeB, runNodeC] runIndex ()).calls
      = [Call.GetNodePool "cluster" "pa" [runNodeA, runNodeB, runNodeC],
          Call.GetNodePool "cluster" "pb" [runNodeA, runNodeB, runNodeC],
          Call.Purge (some runNodeB), Call.DeleteInstance "cluster" (some runNodeB)] := by
  decide

/-! ## The cluster client: cordon, drain, delete and the rollback -/

theorem applyCordonOrUncordon_calls {σ : Type} (k8s : K8sClient σ) (node : Node)
    (cordon : Bool) (s : σ) :
    (k8s.applyCordonOrUncordon node cordon s).calls
        = [K8sEvent.applyCordonOrUncordon node.Name cordon, K8sEvent.NodesGet node.Name] ∨
    ∃ n, (k8s.applyCordonOrUncordon node cordon s).calls
        = [K8sEvent.applyCordonOrUncordon node.Name cordon, K8sEvent.NodesGet node.Name,
            K8sEvent.NodesUpdate n] := by
  unfold K8sClient.applyCordonOrUncordon
  rcases hget : k8s.clientset.NodesGet node.Name s with ⟨res, s1⟩
  cases res with
  | error err => exact Or.inl rfl
  | ok n =>
    simp only
    by_cases h : n.Unschedulable = cordon
    · rw [if_pos h]
      exact Or.inl rfl
    · rw [if_neg h]
      exact Or.inr ⟨_, rfl⟩

theorem uncordon_count {σ : Type} (k8s : K8sClient σ) (node : Node) (s : σ) :
    (k8s.applyCordonOrUncordon node false s).calls.count
      (K8sEvent.applyCordonOrUncordon node.Name false) = 1 := by
  rcases applyCordonOrUncordon_calls k8s node false s with h | ⟨n, h⟩ <;>
    rw [h] <;> simp [List.count_cons]

theorem cordon_count {σ : Type} (k8s : K8sClient σ) (node : Node) (s : σ) :
    (k8s.applyCordonOrUncordon node true s).calls.count
      (K8sEvent.applyCordonOrUncordon node.Name false) = 0 := by
  rcases applyCordonOrUncordon_calls k8s node true s with h | ⟨n, h⟩ <;>
    rw [h] <;> simp [List.count_cons]

theorem applyCordonOrUncordon_no_delete {σ : Type} (k8s : K8sClient σ) (node : Node)
    (cordon : Bool) (s : σ) (name : String) :
    K8sEvent.NodesDelete name ∉ (k8s.applyCordonOrUncordon node cordon s).calls := by
  rcases applyCordonOrUncordon_calls k8s node cordon s with h | ⟨n, h⟩ <;>
    rw [h] <;> simp

theorem policyVersion_calls {σ : Type} (k8s : K8sClient σ) (s : σ) :
    ∀ e ∈ (k8s.policyVersion s).2.1, drainOnly e := by
  unfold K8sClient.policyVersion
  rcases hg : k8s.clientset.ServerGroups s with ⟨res, s1⟩
  cases res with
  | error err =>
    intro e he
    simp only [List.mem_singleton] at he
    subst he
    exact ⟨fun _ _ h => (by cases h), fun _ h => (by cases h)⟩
  | ok groups =>
    simp only
    rcases hl : policyGroupLoop groups with ⟨found, version⟩
    cases found with
    | false =>
      intro e he
      simp only [List.mem_singleton] at he
      subst he
      exact ⟨fun _ _ h => (by cases h), fun _ h => (by cases h)⟩
    | true =>
      simp only
      have hboth : ∀ e ∈ [K8sEvent.ServerGroups, K8sEvent.ServerResourcesForGroupVersion "v1"],
          drainOnly e := by
        intro e he
        simp only [List.mem_cons, List.mem_singleton, List.not_mem_nil, or_false] at he
        rcases he with rfl | rfl <;>
          exact ⟨fun _ _ h => (by cases h), fun _ h => (by cases h)⟩
      rcases hr : k8s.clientset.ServerResourcesForGroupVersion "v1" s1 with ⟨res2, s2⟩
      cases res2 with
      | error err => exact hboth
      | ok resources =>
        simp only
        by_cases hev : evictionResourceLoop resources = true
        · rw [if_pos hev]
          exact hboth
        · rw [if_neg hev]
          exact hboth

theorem evictLoop_calls {σ : Type} (cs : Clientset σ) (policy : String) (pods : List Pod)
    (s : σ) : ∀ e ∈ (evictLoop cs policy pods s).calls, drainOnly e := by
  induction pods generalizing s with
  | nil =>
    intro e he
    simp [evictLoop] at he
  | cons pod rest ih =>
    unfold evictLoop
    rcases hev : cs.Evict ⟨policy, EvictionKind, pod.Name, pod.Namespace⟩ s with ⟨err, s1⟩
    cases err with
    | some msg =>
      intro e he
      simp only [List.mem_singleton] at he
      subst he
      exact ⟨fun _ _ h => (by cases h), fun _ h => (by cases h)⟩
    | none =>
      intro e he
      simp only [List.mem_cons] at he
      rcases he with rfl | he
      · exact ⟨fun _ _ h => (by cases h), fun _ h => (by cases h)⟩
      · exact ih s1 e he

theorem evictPods_calls {σ : Type} (k8s : K8sClient σ) (node : Node) (policy : String)
    (s : σ) : ∀ e ∈ (k8s.evictPods node policy s).calls, drainOnly e := by
  unfold K8sClient.evictPods
  rcases hl : k8s.clientset.PodsList node.Name s with ⟨res, s1⟩
  cases res with
  | error err =>
    intro e he
    simp only [List.mem_singleton] at he
    subst he
    exact ⟨fun _ _ h => (by cases h), fun _ h => (by cases h)⟩
  | ok pods =>
    intro e he
    simp only [List.mem_cons] at he
    rcases he with rfl | he
    · exact ⟨fun _ _ h => (by cases h), fun _ h => (by cases h)⟩
    · exact evictLoop_calls k8s.clientset policy pods s1 e he

theorem drain_calls {σ : Type} (k8s : K8sClient σ) (node : Node) (s : σ) :
    ∀ e ∈ (k8s.drain node s).calls, drainOnly e := by
  have hp := policyVersion_calls k8s s
  unfold K8sClient.drain
  rcases hpv : k8s.policyVersion s with ⟨res, c1, s1⟩
  rw [hpv] at hp
  cases res with
  | error err => exact hp
  | ok policy =>
    intro e he
    simp only [List.mem_append] at he
    rcases he with he | he
    · exact hp e he
    · exact evictPods_calls k8s node policy s1 e he

theorem delete_calls {σ : Type} (k8s : K8sClient σ) (node : Node) (s : σ) :
    ∀ e ∈ (k8s.delete node s).calls, ∀ name cordon,
      e ≠ K8sEvent.applyCordonOrUncordon name cordon := by
  unfold K8sClient.delete
  rcases hget : k8s.clientset.NodesGet node.Name s with ⟨res, s1⟩
  cases res with
  | error err =>
    intro e he
    simp only [List.mem_singleton] at he
    subst he
    exact fun _ _ h => by cases h
  | ok n =>
    simp only
    cases hu : n.Unschedulable with
    | false =>
      intro e he
      simp only [Bool.not_false, if_true, List.mem_singleton] at he
      subst he
      exact fun _ _ h => by cases h
    | true =>
      intro e he
      simp only [Bool.not_true, Bool.false_eq_true, if_false, List.mem_cons,
        List.mem_singleton, List.not_mem_nil, or_false] at he
      rcases he with rfl | rfl <;> exact fun _ _ h => by cases h

theorem drain_count {σ : Type} (k8s : K8sClient σ) (node : Node) (s : σ) (name : String)
    (cordon : Bool) :
    (k8s.drain node s).calls.count (K8sEvent.applyCordonOrUncordon name cordon) = 0 := by
  rw [List.count_eq_zero]
  intro h
  exact (drain_calls k8s node s _ h).1 name cordon rfl

theorem delete_count {σ : Type} (k8s : K8sClient σ) (node : Node) (s : σ) (name : String)
    (cordon : Bool) :
    (k8s.delete node s).calls.count (K8sEvent.applyCordonOrUncordon name cordon) = 0 := by
  rw [List.count_eq_zero]
  intro h
  exact delete_calls k8s node s _ h name cordon rfl

theorem rolledBack_of_uncordonAfter {σ : Type} (k8s : K8sClient σ) (node : Node)
    (before : List K8sEvent) (wrap failure : String) (s : σ)
    (hbefore : before.count (K8sEvent.applyCordonOrUncordon node.Name false) = 0) :
    RolledBack k8s node
      ⟨(k8s.uncordonAfter node (wrap ++ failure) s).err,
        before ++ (k8s.uncordonAfter node (wrap ++ failure) s).calls,
        (k8s.uncordonAfter node (wrap ++ failure) s).state⟩
      before wrap failure s := by
  have hcount := uncordon_count k8s node s
  unfold RolledBack K8sClient.uncordonAfter
  cases herr : (k8s.applyCordonOrUncordon node false s).err with
  | none =>
    refine ⟨rfl, rfl, ?_, fun _ => rfl, fun err h => (by cases h)⟩
    simp only [List.count_append, hbefore, hcount]
  | some err2 =>
    refine ⟨rfl, rfl, ?_, fun h => (by cases h), fun err h => ?_⟩
    · simp only [List.count_append, hbefore, hcount]
    · cases h
      rfl

/-- Claim C11, as the code has it.  Rollback law: when `K8sClient.Purge` has
cordoned the node and then fails in the drain, or in the delete after a
successful drain, it runs the compensating `applyCordonOrUncordon(node, false)`
exactly once, as its last step, and the error it returns is the failure wrapped
with `failed to drain: ` or `failed to delete: `; the error of the uncordon is
appended after `: ` when the uncordon fails, and nothing is added when the
uncordon succeeds. -/
theorem purge_rollback {σ : Type} (k8s : K8sClient σ) (node : Node) (s : σ)
    (c1 : List K8sEvent) (s1 : σ)
    (hcordon : k8s.applyCordonOrUncordon node true s = ⟨none, c1, s1⟩) :
    (∀ failure c2 s2, k8s.drain node s1 = ⟨some failure, c2, s2⟩ →
      RolledBack k8s node (k8s.Purge node s) (c1 ++ c2) "failed to drain: " failure s2) ∧
    (∀ c2 s2 failure c3 s3, k8s.drain node s1 = ⟨none, c2, s2⟩ →
      k8s.delete node s2 = ⟨some failure, c3, s3⟩ →
      RolledBack k8s node (k8s.Purge node s) (c1 ++ c2 ++ c3) "failed to delete: " failure s3) := by
  have hc1 : c1.count (K8sEvent.applyCordonOrUncordon node.Name false) = 0 := by
    have := cordon_count k8s node s
    rw [hcordon] at this
    exact this
  refine ⟨?_, ?_⟩
  · intro failure c2 s2 hdrain
    have hc2 : c2.count (K8sEvent.applyCordonOrUncordon node.Name false) = 0 := by
      have := drain_count k8s node s1 node.Name false
      rw [hdrain] at this
      exact this
    have hrun : k8s.Purge node s
        = ⟨(k8s.uncordonAfter node ("failed to drain: " ++ failure) s2).err,
            c1 ++ c2 ++ (k8s.uncordonAfter node ("failed to drain: " ++ failure) s2).calls,
            (k8s.uncordonAfter node ("failed to drain: " ++ failure) s2).state⟩ := by
      unfold K8sClient.Purge
      rw [hcordon]
      simp only
      rw [hdrain]
    rw [hrun]
    exact rolledBack_of_uncordonAfter k8s node (c1 ++ c2) "failed to drain: " failure s2
      (by simp only [List.count_append, hc1, hc2])
  · intro c2 s2 failure c3 s3 hdrain hdelete
    have hc2 : c2.count (K8sEvent.applyCordonOrUncordon node.Name false) = 0 := by
      have := drain_count k8s node s1 node.Name false
      rw [hdrain] at this
      exact this
    have hc3 : c3.count (K8sEvent.applyCordonOrUncordon node.Name false) = 0 := by
      have := delete_count k8s node s2 node.Name false
      rw [hdelete] at this
      exact this
    have hrun : k8s.Purge node s
        = ⟨(k8s.uncordonAfter node ("failed to delete: " ++ failure) s3).err,
            c1 ++ c2 ++ c3
              ++ (k8s.uncordonAfter node ("failed to delete: " ++ failure) s3).calls,
            (k8s.uncordonAfter node ("failed to delete: " ++ failure) s3).state⟩ := by
      unfold K8sClient.Purge
      rw [hcordon]
      simp only
      rw [hdrain]
      simp only
      rw [hdelete]
    rw [hrun]
    exact rolledBack_of_uncordonAfter k8s node (c1 ++ c2 ++ c3) "failed to delete: " failure s3
      (by simp only [List.count_append, hc1, hc2, hc3])

/-- A drain that fails with `x` followed by an uncordon that fails with `y`:
the uncordon is entered once and the error returned names both failures. -/
theorem purge_rollback_witness :
    uncordonFailsClient.applyCordonOrUncordon nodeA true clusterStart
      = ⟨none, [K8sEvent.applyCordonOrUncordon "na" true, K8sEvent.NodesGet "na",
          K8sEvent.NodesUpdate ⟨"na", true⟩], ⟨true, 1⟩⟩ ∧
    uncordonFailsClient.drain nodeA ⟨true, 1⟩
      = ⟨some "x", [K8sEvent.ServerGroups], ⟨true, 1⟩⟩ ∧
    (uncordonFailsClient.Purge nodeA clusterStart).calls.count
      (K8sEvent.applyCordonOrUncordon "na" false) = 1 ∧
    (uncordonFailsClient.Purge nodeA clusterStart).err = some "failed to drain: x: y" :=
  ⟨rfl, rfl,
    ((purge_rollback uncordonFailsClient nodeA clusterStart
      [K8sEvent.applyCordonOrUncordon "na" true, K8sEvent.NodesGet "na",
        K8sEvent.NodesUpdate ⟨"na", true⟩] ⟨true, 1⟩ rfl).1
      "x" [K8sEvent.ServerGroups] ⟨true, 1⟩ rfl).2.2.1,
    ((purge_rollback uncordonFailsClient nodeA clusterStart
      [K8sEvent.applyCordonOrUncordon "na" true, K8sEvent.NodesGet "na",
        K8sEvent.NodesUpdate ⟨"na", true⟩] ⟨true, 1⟩ rfl).1
      "x" [K8sEvent.ServerGroups] ⟨true, 1⟩ rfl).2.2.2.2 "y" rfl⟩

/-- The claim C11 fails on the code.  In one cluster the drain fails with
`x: y` and the uncordon succeeds; in the other the drain fails with `x` and the
uncordon fails with `y`.  `K8sClient.Purge` returns the same error in both, and
after the successful uncordon that error is the wrapped drain failure alone:
the error does not tell the outcome of the uncordon. -/
theorem rollback_error_hides_uncordon_outcome :
    (drainFailsClient.drain nodeA ⟨true, 1⟩).err = some "x: y" ∧
    (drainFailsClient.applyCordonOrUncordon nodeA false ⟨true, 1⟩).err = none ∧
    (drainFailsClient.Purge nodeA clusterStart).err = some "failed to drain: x: y" ∧
    (uncordonFailsClient.drain nodeA ⟨true, 1⟩).err = some "x" ∧
    (uncordonFailsClient.applyCordonOrUncordon nodeA false ⟨true, 1⟩).err = some "y" ∧
    (uncordonFailsClient.Purge nodeA clusterStart).err = some "failed to drain: x: y" := by
  decide

theorem uncordonAfter_err {σ : Type} (k8s : K8sClient σ) (node : Node) (e : String) (s : σ) :
    (k8s.uncordonAfter node e s).err ≠ none := by
  unfold K8sClient.uncordonAfter
  cases (k8s.applyCordonOrUncordon node false s).err <;> simp

theorem uncordonAfter_calls {σ : Type} (k8s : K8sClient σ) (node : Node) (e : String)
    (s : σ) :
    (k8s.uncordonAfter node e s).calls = (k8s.applyCordonOrUncordon node false s).calls := by
  unfold K8sClient.uncordonAfter
  cases (k8s.applyCordonOrUncordon node false s).err <;> rfl

/-! ## The shape of a run of `purgeInGroup` -/

/-- The purge sequence makes one call of `Purge` and, exactly when that call
has succeeded, one call of `DeleteInstance` on the same target. -/
theorem purgeAndDelete_shape {σ : Type} (p : Thyella σ) (cluster : String)
    (target : Option Node) (cs : List Call) (s : σ) :
    ((purgeAndDelete p cluster target cs s).calls = cs ++ [Call.Purge target] ∧
      (p.K8sClient.Purge target s).1 ≠ none) ∨
    ((purgeAndDelete p cluster target cs s).calls
        = cs ++ [Call.Purge target, Call.DeleteInstance cluster target] ∧
      (p.K8sClient.Purge target s).1 = none) := by
  unfold purgeAndDelete
  rcases hp : p.K8sClient.Purge target s with ⟨e1, s1⟩
  cases e1 with
  | some err =>
    left
    cases target <;> exact ⟨rfl, by simp⟩
  | none =>
    right
    simp only
    rcases hd : p.KaasClient.DeleteInstance cluster target s1 with ⟨e2, s2⟩
    cases e2 with
    | some err => cases target <;> exact ⟨rfl, trivial⟩
    | none => exact ⟨rfl, trivial⟩

theorem purgePreemptible_cases {σ : Type} (p : Thyella σ) (cluster : String)
    (npg : NodePoolGroup) (cs : List Call) (s : σ) :
    (purgePreemptible p cluster npg cs s).calls = cs ∨
    ∃ t, purgePreemptible p cluster npg cs s = purgeAndDelete p cluster t cs s := by
  unfold purgePreemptible
  split
  · split
    · exact Or.inr ⟨_, rfl⟩
    · exact Or.inl rfl
  · exact Or.inl rfl

theorem purgeDecision_cases {σ : Type} (p : Thyella σ) (ord : MapOrder) (cluster : String)
    (npg : NodePoolGroup) (cs : List Call) (s : σ) :
    (purgeDecision p ord cluster npg cs s).calls = cs ∨
    ∃ t, purgeDecision p ord cluster npg cs s = purgeAndDelete p cluster t cs s := by
  unfold purgeDecision
  split
  · exact Or.inl rfl
  · split
    · split
      · exact Or.inr ⟨_, rfl⟩
      · exact purgePreemptible_cases p cluster npg cs s
    · exact purgePreemptible_cases p cluster npg cs s

/-- A run of `purgeInGroup` is the fetch loop followed by nothing, or by one
call of `Purge` that failed, or by one call of `Purge` that succeeded and one
call of `DeleteInstance` on the same target. -/
theorem purgeInGroup_shape {σ : Type} (p : Thyella σ) (ord : MapOrder) (cluster : String)
    (group : List String) (nodes : List Node) (nep : PoolIndex) (s : σ) :
    ∃ res cs s1, fetchLoop p.KaasClient cluster nodes nep group [] [] s = (res, cs, s1) ∧
      ((p.purgeInGroup ord cluster group nodes nep s).calls = cs ∨
        ∃ pools t, res = Except.ok pools ∧
          (((p.purgeInGroup ord cluster group nodes nep s).calls = cs ++ [Call.Purge t] ∧
              (p.K8sClient.Purge t s1).1 ≠ none) ∨
            ((p.purgeInGroup ord cluster group nodes nep s).calls
                = cs ++ [Call.Purge t, Call.DeleteInstance cluster t] ∧
              (p.K8sClient.Purge t s1).1 = none))) := by
  rcases hf : fetchLoop p.KaasClient cluster nodes nep group [] [] s with ⟨res, cs, s1⟩
  refine ⟨res, cs, s1, rfl, ?_⟩
  unfold Thyella.purgeInGroup
  rw [hf]
  cases res with
  | error err => exact Or.inl rfl
  | ok pools =>
    simp only
    rcases purgeDecision_cases p ord cluster ⟨pools⟩ cs s1 with h | ⟨t, h⟩
    · exact Or.inl h
    · rw [h]
      exact Or.inr ⟨pools, t, rfl, purgeAndDelete_shape p cluster t cs s1⟩

/-- Claim C12.  When the node object is not marked unschedulable at the moment
the delete step of `K8sClient.Purge` reads it (the cordon and the drain having
succeeded), `K8sClient.delete` returns an error and sends no deletion of the
node object, `K8sClient.Purge` returns an error and its run holds no deletion
of a node object, and `purgeInGroup`, run on that `K8sClient`, makes no call of
`KaasClient.DeleteInstance` for the node. -/
theorem delete_guard {σ : Type} (k8s : K8sClient σ) (kaas : KaasProvider σ)
    (getNodeList : σ → Except String (List Node) × σ) (ord : MapOrder) (cluster : String)
    (group : List String) (nodes : List Node) (nep : PoolIndex) (s : σ)
    (res : Except String (List NodePool)) (cs : List Call) (s1 : σ)
    (hfetch : fetchLoop kaas cluster nodes nep group [] [] s = (res, cs, s1))
    (node : Node) (c1 c2 : List K8sEvent) (sa sb sc : σ) (obj : NodeObject)
    (hcordon : k8s.applyCordonOrUncordon node true s1 = ⟨none, c1, sa⟩)
    (hdrain : k8s.drain node sa = ⟨none, c2, sb⟩)
    (hget : k8s.clientset.NodesGet node.Name sb = (.ok obj, sc))
    (hsched : obj.Unschedulable = false) :
    k8s.delete node sb
      = ⟨some ("detect schedulable flag, aborting delete node: " ++ node.Name ++ " %!w(<nil>)"),
          [K8sEvent.NodesGet node.Name], sc⟩ ∧
    (k8s.Purge node s1).err ≠ none ∧
    (∀ name, K8sEvent.NodesDelete name ∉ (k8s.Purge node s1).calls) ∧
    (∀ c, Call.DeleteInstance c (some node) ∉
      ((Thyella.mk kaas (k8s.accessor getNodeList)).purgeInGroup
        ord cluster group nodes nep s).calls) := by
  have hdelete : k8s.delete node sb
      = ⟨some ("detect schedulable flag, aborting delete node: " ++ node.Name
            ++ " %!w(<nil>)"),
          [K8sEvent.NodesGet node.Name], sc⟩ := by
    unfold K8sClient.delete
    rw [hget]
    simp only [hsched, Bool.not_false, if_true]
  have hrun : k8s.Purge node s1
      = ⟨(k8s.uncordonAfter node ("failed to delete: "
              ++ ("detect schedulable flag, aborting delete node: " ++ node.Name
                ++ " %!w(<nil>)")) sc).err,
          c1 ++ c2 ++ [K8sEvent.NodesGet node.Name]
            ++ (k8s.uncordonAfter node ("failed to delete: "
              ++ ("detect schedulable flag, aborting delete node: " ++ node.Name
                ++ " %!w(<nil>)")) sc).calls,
          (k8s.uncordonAfter node ("failed to delete: "
              ++ ("detect schedulable flag, aborting delete node: " ++ node.Name
                ++ " %!w(<nil>)")) sc).state⟩ := by
    unfold K8sClient.Purge
    rw [hcordon]
    simp only
    rw [hdrain]
    simp only
    rw [hdelete]
  have herr : (k8s.Purge node s1).err ≠ none := by
    rw [hrun]
    exact uncordonAfter_err k8s node _ sc
  refine ⟨hdelete, herr, ?_, ?_⟩
  · intro name hmem
    rw [hrun] at hmem
    simp only [List.mem_append, List.mem_singleton, uncordonAfter_calls] at hmem
    rcases hmem with ((h | h) | h) | h
    · have := applyCordonOrUncordon_no_delete k8s node true s1 name
      rw [hcordon] at this
      exact this h
    · have := drain_calls k8s node sa
      rw [hdrain] at this
      exact (this _ h).2 name rfl
    · cases h
    · exact applyCordonOrUncordon_no_delete k8s node false sc name h
  · intro c hmem
    obtain ⟨res2, cs2, s2, hf, hshape⟩ :=
      purgeInGroup_shape (Thyella.mk kaas (k8s.accessor getNodeList)) ord cluster group nodes
        nep s
    have hf2 : (res2, cs2, s2) = (res, cs, s1) := hf.symm.trans hfetch
    simp only [Prod.mk.injEq] at hf2
    obtain ⟨-, rfl, rfl⟩ := hf2
    have hcs := fetch_calls_getNodePool hfetch
    rcases hshape with h | ⟨pools, t, -, h | h⟩
    · rw [h] at hmem
      obtain ⟨pool, hpool⟩ := hcs _ hmem
      cases hpool
    · rw [h.1] at hmem
      simp only [List.mem_append, List.mem_singleton] at hmem
      rcases hmem with hmem | hmem
      · obtain ⟨pool, hpool⟩ := hcs _ hmem
        cases hpool
      · cases hmem
    · rw [h.1] at hmem
      simp only [List.mem_append, List.mem_cons, List.mem_singleton, List.not_mem_nil,
        or_false] at hmem
      rcases hmem with hmem | hmem | hmem
      · obtain ⟨pool, hpool⟩ := hcs _ hmem
        cases hpool
      · cases hmem
      · simp only [Call.DeleteInstance.injEq] at hmem
        have hok := h.2
        rw [← hmem.2] at hok
        exact herr hok

/-- A cluster in which the node is made schedulable again while the pods are
listed: the delete step refuses, `K8sClient.Purge` fails, and `purgeInGroup`
ends after the call of `Purge` without a call of `DeleteInstance`. -/
theorem delete_guard_witness :
    (raceClient.Purge nodeA clusterStart).err
      = some "failed to delete: detect schedulable flag, aborting delete node: na %!w(<nil>)" ∧
    (∀ c, Call.DeleteInstance c (some nodeA) ∉
      ((clientThyella raceClient [enoughPa, enoughPb] [nodeA, nodeB, nodeC]).purgeInGroup
        MapOrder.forward "cluster" ["pa", "pb"] [nodeA, nodeB, nodeC] testIndex
        clusterStart).calls) ∧
    ((clientThyella raceClient [enoughPa, enoughPb] [nodeA, nodeB, nodeC]).purgeInGroup
        MapOrder.forward "cluster" ["pa", "pb"] [nodeA, nodeB, nodeC] testIndex
        clusterStart).calls
      = [Call.GetNodePool "cluster" "pa" [nodeA, nodeB, nodeC],
          Call.GetNodePool "cluster" "pb" [nodeA, nodeB, nodeC],
          Call.Purge (some nodeA)] :=
  ⟨by decide,
    (delete_guard raceClient (stubKaasOn [enoughPa, enoughPb])
      (fun s => (.ok [nodeA, nodeB, nodeC], s)) MapOrder.forward "cluster" ["pa", "pb"]
      [nodeA, nodeB, nodeC] testIndex clusterStart
      (.ok [enoughPa, enoughPb])
      [Call.GetNodePool "cluster" "pa" [nodeA, nodeB, nodeC],
        Call.GetNodePool "cluster" "pb" [nodeA, nodeB, nodeC]] clusterStart rfl
      nodeA
      [K8sEvent.applyCordonOrUncordon "na" true, K8sEvent.NodesGet "na",
        K8sEvent.NodesUpdate ⟨"na", true⟩]
      [K8sEvent.ServerGroups, K8sEvent.PodsList "na"]
      ⟨true, 1⟩ ⟨false, 1⟩ ⟨false, 2⟩ ⟨"na", false⟩ rfl rfl rfl rfl).2.2.2,
    by decide⟩

/-! ## The entry point `Thyella.Purge` -/

/-- Claim C13.  With an empty list of pool names `Thyella.Purge` returns nil
and calls no collaborator, not even `GetNodeList`; with a list that is not
empty and an empty node inventory it returns nil after the one call of
`GetNodeList`, without a call of `GetNodePool`, `K8sClient.Purge` or
`DeleteInstance`. -/
theorem purge_noop {σ : Type} (p : Thyella σ) (ord : MapOrder) (cluster : String) (s : σ) :
    p.Purge ord cluster [] s = ⟨PurgeOutcome.ret none, [], s⟩ ∧
    (∀ (nps : List String) (s0 : σ), nps ≠ [] →
      p.K8sClient.GetNodeList s = (.ok [], s0) →
      p.Purge ord cluster nps s = ⟨PurgeOutcome.ret none, [Call.GetNodeList], s0⟩) := by
  refine ⟨?_, ?_⟩
  · simp [Thyella.Purge]
  · intro nps s0 hne hlist
    have hlen : ¬ nps.length = 0 := by
      intro h
      exact hne (List.length_eq_zero.mp h)
    unfold Thyella.Purge
    rw [if_neg hlen, hlist]
    simp

/-- The purger of the tests on an empty list of pool names, and on the pool
names of `TestRun` with an empty node inventory. -/
theorem purge_noop_witness :
    (stubThyella [enoughPa, enoughPb] [nodeA, nodeB, nodeC]).Purge
        MapOrder.forward "cluster" [] ()
      = ⟨PurgeOutcome.ret none, [], ()⟩ ∧
    (stubThyella [enoughPa, enoughPb] []).Purge MapOrder.forward "cluster" ["pa", "pb"] ()
      = ⟨PurgeOutcome.ret none, [Call.GetNodeList], ()⟩ :=
  ⟨(purge_noop (stubThyella [enoughPa, enoughPb] [nodeA, nodeB, nodeC])
      MapOrder.forward "cluster" ()).1,
    (purge_noop (stubThyella [enoughPa, enoughPb] []) MapOrder.forward "cluster" ()).2
      ["pa", "pb"] () (by decide) rfl⟩

/-- A run of `Thyella.Purge` makes no call of `Purge` or `DeleteInstance`, or it
is `GetNodeList`, the fetch loop, and then one call of `Purge` that failed, or
one call of `Purge` that succeeded and one call of `DeleteInstance` on the same
target. -/
theorem purge_shape {σ : Type} (p : Thyella σ) (ord : MapOrder) (cluster : String)
    (nps : List String) (s : σ) :
    (∀ c ∈ (p.Purge ord cluster nps s).calls,
      c.isPurge = false ∧ c.isDeleteInstance = false) ∨
    ∃ nodes s0 pools cs s1 t,
      p.K8sClient.GetNodeList s = (.ok nodes, s0) ∧
      fetchLoop p.KaasClient cluster nodes (nodeEachPools nodes) nps [] [] s0
        = (.ok pools, cs, s1) ∧
      (∀ c ∈ cs, ∃ pool, c = Call.GetNodePool cluster pool nodes) ∧
      (((p.Purge ord cluster nps s).calls = Call.GetNodeList :: cs ++ [Call.Purge t] ∧
          (p.K8sClient.Purge t s1).1 ≠ none) ∨
        ((p.Purge ord cluster nps s).calls
            = Call.GetNodeList :: cs ++ [Call.Purge t, Call.DeleteInstance cluster t] ∧
          (p.K8sClient.Purge t s1).1 = none)) := by
  unfold Thyella.Purge
  by_cases hlen : nps.length = 0
  · left
    rw [if_pos hlen]
    intro c hc
    cases hc
  · rw [if_neg hlen]
    rcases hlist : p.K8sClient.GetNodeList s with ⟨res, s0⟩
    cases res with
    | error err =>
      left
      intro c hc
      simp only [List.mem_singleton] at hc
      subst hc
      exact ⟨rfl, rfl⟩
    | ok nodes =>
      simp only
      by_cases hn : nodes.length = 0
      · left
        rw [if_pos hn]
        intro c hc
        simp only [List.mem_singleton] at hc
        subst hc
        exact ⟨rfl, rfl⟩
      · rw [if_neg hn]
        obtain ⟨res2, cs, s1, hf, hshape⟩ :=
          purgeInGroup_shape p ord cluster nps nodes (nodeEachPools nodes) s0
        have hcs := fetch_calls_getNodePool hf
        rcases hshape with h | ⟨pools, t, rfl, h⟩
        · left
          intro c hc
          simp only [List.mem_cons] at hc
          rcases hc with rfl | hc
          · exact ⟨rfl, rfl⟩
          · rw [h] at hc
            obtain ⟨pool, rfl⟩ := hcs c hc
            exact ⟨rfl, rfl⟩
        · right
          refine ⟨nodes, s0, pools, cs, s1, t, rfl, hf, hcs, ?_⟩
          rcases h with ⟨h1, h2⟩ | ⟨h1, h2⟩
          · exact Or.inl ⟨by simp only [h1, List.cons_append], h2⟩
          · exact Or.inr ⟨by simp only [h1, List.cons_append], h2⟩

theorem countP_fetch_calls {cluster : String} {nodes : List Node} {cs : List Call}
    (hcs : ∀ c ∈ cs, ∃ pool, c = Call.GetNodePool cluster pool nodes) :
    cs.countP Call.isPurge = 0 ∧ cs.countP Call.isDeleteInstance = 0 := by
  constructor <;>
  · rw [List.countP_eq_zero]
    intro c hc
    obtain ⟨pool, rfl⟩ := hcs c hc
    simp [Call.isPurge, Call.isDeleteInstance]

/-- Claim C14.  In every run of `Thyella.Purge`, whatever the input and whatever
the collaborators answer, `K8sClient.Purge` is called at most once and
`KaasClient.DeleteInstance` is called at most once; a call of `DeleteInstance`
is the last call of the run, it directly follows the call of `Purge` on the same
node, and that call of `Purge`, made in the state the fetch loop has left, has
returned no error. -/
theorem purge_at_most_once {σ : Type} (p : Thyella σ) (ord : MapOrder) (cluster : String)
    (nps : List String) (s : σ) :
    (p.Purge ord cluster nps s).calls.countP Call.isPurge ≤ 1 ∧
    (p.Purge ord cluster nps s).calls.countP Call.isDeleteInstance ≤ 1 ∧
    (∀ c x, Call.DeleteInstance c x ∈ (p.Purge ord cluster nps s).calls →
      ∃ nodes s0 pools cs s1,
        p.K8sClient.GetNodeList s = (.ok nodes, s0) ∧
        fetchLoop p.KaasClient cluster nodes (nodeEachPools nodes) nps [] [] s0
          = (.ok pools, cs, s1) ∧
        (∀ k ∈ cs, ∃ pool, k = Call.GetNodePool cluster pool nodes) ∧
        (p.K8sClient.Purge x s1).1 = none ∧
        c = cluster ∧
        (p.Purge ord cluster nps s).calls
          = Call.GetNodeList :: cs ++ [Call.Purge x, Call.DeleteInstance cluster x]) := by
  rcases purge_shape p ord cluster nps s with hnone | ⟨nodes, s0, pools, cs, s1, t, hl, hf, hcs, h⟩
  · refine ⟨?_, ?_, ?_⟩
    · have : (p.Purge ord cluster nps s).calls.countP Call.isPurge = 0 := by
        rw [List.countP_eq_zero]
        intro c hc
        simp [(hnone c hc).1]
      omega
    · have : (p.Purge ord cluster nps s).calls.countP Call.isDeleteInstance = 0 := by
        rw [List.countP_eq_zero]
        intro c hc
        simp [(hnone c hc).2]
      omega
    · intro c x hmem
      have := (hnone _ hmem).2
      simp [Call.isDeleteInstance] at this
  · obtain ⟨hp0, hd0⟩ := countP_fetch_calls hcs
    rcases h with ⟨h1, h2⟩ | ⟨h1, h2⟩
    · refine ⟨?_, ?_, ?_⟩
      · rw [h1]
        simp [List.countP_cons, List.countP_append, hp0, Call.isPurge]
      · rw [h1]
        simp [List.countP_cons, List.countP_append, hd0, Call.isDeleteInstance]
      · intro c x hmem
        rw [h1] at hmem
        simp only [List.cons_append, List.mem_cons, List.mem_append, List.mem_singleton,
          List.not_mem_nil, or_false] at hmem
        rcases hmem with hmem | hmem | hmem
        · cases hmem
        · obtain ⟨pool, hpool⟩ := hcs _ hmem
          cases hpool
        · cases hmem
    · refine ⟨?_, ?_, ?_⟩
      · rw [h1]
        simp [List.countP_cons, List.countP_append, hp0, Call.isPurge]
      · rw [h1]
        simp [List.countP_cons, List.countP_append, hd0, Call.isDeleteInstance]
      · intro c x hmem
        have hmem2 := hmem
        rw [h1] at hmem2
        simp only [List.cons_append, List.mem_cons, List.mem_append, List.mem_singleton,
          List.not_mem_nil, or_false] at hmem2
        rcases hmem2 with hmem2 | hmem2 | hmem2 | hmem2
        · cases hmem2
        · obtain ⟨pool, hpool⟩ := hcs _ hmem2
          cases hpool
        · cases hmem2
        · simp only [Call.DeleteInstance.injEq] at hmem2
          obtain ⟨rfl, rfl⟩ := hmem2
          exact ⟨nodes, s0, pools, cs, s1, hl, hf, hcs, h2, rfl, h1⟩

/-- The first case of `TestRun` ("should purge 'pa' and 'pb'"), run through
`Thyella.Purge`: one call of `Purge` and one call of `DeleteInstance`, both on
`nodeA` of `TestRun`, after the node list and the two pools were fetched. -/
theorem purge_at_most_once_witness :
    ((stubThyella [runPa, runPb] [runNodeA, runNodeB, runNodeC]).Purge
        MapOrder.forward "cluster" ["pa", "pb"] ()).calls.countP Call.isPurge ≤ 1 ∧
    ((stubThyella [runPa, runPb] [runNodeA, runNodeB, runNodeC]).Purge
        MapOrder.forward "cluster" ["pa", "pb"] ()).calls.countP Call.isDeleteInstance ≤ 1 ∧
    (stubThyella [runPa, runPb] [runNodeA, runNodeB, runNodeC]).Purge
        MapOrder.forward "cluster" ["pa", "pb"] ()
      = ⟨PurgeOutcome.ret none,
          [Call.GetNodeList,
            Call.GetNodePool "cluster" "pa" [runNodeA, runNodeB, runNodeC],
            Call.GetNodePool "cluster" "pb" [runNodeA, runNodeB, runNodeC],
            Call.Purge (some runNodeA), Call.DeleteInstance "cluster" (some runNodeA)], ()⟩ :=
  ⟨(purge_at_most_once (stubThyella [runPa, runPb] [runNodeA, runNodeB, runNodeC])
      MapOrder.forward "cluster" ["pa", "pb"] ()).1,
    (purge_at_most_once (stubThyella [runPa, runPb] [runNodeA, runNodeB, runNodeC])
      MapOrder.forward "cluster" ["pa", "pb"] ()).2.1,
    rfl⟩

/-! ## The target of the non-preemptible branch -/

theorem nodes_ne_nil_of_above_floor (np : NodePool) (hmin : 0 ≤ np.MinNodeCount)
    (hfit : FitsInt (floorOf np)) (hfloor : np.IsMinimumNodes = false) : np.Nodes ≠ [] := by
  intro hnil
  have habove := (isMinimumNodes_false_of_fits np hfit).mp hfloor
  have hz : (0 : Int) ≤ floorOf np := mul_nonneg hmin (Int.ofNat_nonneg _)
  have hzero : readyCount np = 0 := by
    simp [readyCount, hnil]
  omega

/-- Claim C15, as the code has it.  For a pool with `MinNodeCount >= 0` whose
floor (`MinNodeCount` times the number of zones) is a value of Go's `int` and
for which `IsMinimumNodes` is false, `GetMaxAgeNodeWithBalance` returns
`ok = true` and a node of the pool's node list, whatever the order in which the
zone map is visited; so when such a pool is the first non-preemptible pool of a
healthy group, the target that `purgeInGroup` passes to `K8sClient.Purge` is a
node of the pool and never nil.  For a pool with a negative `MinNodeCount`, at
least one zone, no node and a floor that is a value of Go's `int`,
`IsMinimumNodes` is false as well and the node returned is nil. -/
theorem balance_target_not_nil (np : NodePool) (ord : MapOrder)
    (hmin : 0 ≤ np.MinNodeCount) (hfit : FitsInt (floorOf np))
    (hfloor : np.IsMinimumNodes = false) :
    (∃ n ∈ np.Nodes, np.GetMaxAgeNodeWithBalance ord = (some n, true)) ∧
    (∀ {σ : Type} (p : Thyella σ) (cluster : String) (group : List String)
      (nodes : List Node) (nep : PoolIndex) (s : σ) (nps : List NodePool) (cs : List Call)
      (s1 : σ),
      fetchLoop p.KaasClient cluster nodes nep group [] [] s = (.ok nps, cs, s1) →
      (∀ q ∈ nps, q.AllGreen = true) → firstPool false nps = some np →
      Call.Purge none ∉ (p.purgeInGroup ord cluster group nodes nep s).calls ∧
      ∃ n ∈ np.Nodes, Call.Purge (some n) ∈ (p.purgeInGroup ord cluster group nodes nep s).calls ∧
        ∀ x, Call.Purge x ∈ (p.purgeInGroup ord cluster group nodes nep s).calls →
          x = some n) ∧
    (∀ q : NodePool, q.MinNodeCount < 0 → q.ZoneURLs ≠ [] → q.Nodes = [] →
      FitsInt (floorOf q) →
      q.IsMinimumNodes = false ∧ q.GetMaxAgeNodeWithBalance ord = (none, false)) := by
  have hne := nodes_ne_nil_of_above_floor np hmin hfit hfloor
  obtain ⟨e, n, -, hval, hr, hn, hfo⟩ := balance_core ord np.Nodes hne
  have hmem : n ∈ np.Nodes := (mem_zoneNodes.mp (hval ▸ firstOldest_mem hfo)).1
  have hres : np.GetMaxAgeNodeWithBalance ord = (some n, true) := by
    simp only [NodePool.GetMaxAgeNodeWithBalance, hr, hn, Option.isSome_some]
  refine ⟨⟨n, hmem, hres⟩, ?_, ?_⟩
  · intro σ p cluster group nodes nep s nps cs s1 hfetch hgreen hfirst
    have hcs := fetch_calls_getNodePool hfetch
    have hrun : p.purgeInGroup ord cluster group nodes nep s
        = purgeAndDelete p cluster (some n) cs s1 := by
      rw [purgeInGroup_of_fetch p ord cluster group nodes nep s nps cs s1 hfetch,
        purgeDecision_non_preemptible p ord cluster nps cs s1 hgreen np hfirst hfloor, hres]
    have hall : ∀ x, Call.Purge x ∈ (purgeAndDelete p cluster (some n) cs s1).calls →
        x = some n := by
      intro x hx
      rcases (purgeAndDelete_trace p cluster (some n) cs s1).1 with h | h
      · rw [h] at hx
        simp only [List.mem_append, List.mem_singleton] at hx
        rcases hx with hx | hx
        · exact absurd hx (not_purge_mem_fetch hcs x)
        · simp only [Call.Purge.injEq] at hx
          exact hx
      · rw [h] at hx
        simp only [List.mem_append, List.mem_cons, List.mem_singleton, List.not_mem_nil,
          or_false] at hx
        rcases hx with hx | hx | hx
        · exact absurd hx (not_purge_mem_fetch hcs x)
        · simp only [Call.Purge.injEq] at hx
          exact hx
        · cases hx
    rw [hrun]
    refine ⟨fun hx => ?_, n, hmem, ?_, hall⟩
    · have := hall none hx
      cases this
    · rcases (purgeAndDelete_trace p cluster (some n) cs s1).1 with h | h <;>
        rw [h] <;> simp
  · intro q hneg hzone hnil hqfit
    constructor
    · rw [isMinimumNodes_false_of_fits q hqfit]
      have hlen : 0 < (q.ZoneURLs.length : Int) := by
        have := List.length_pos.mpr hzone
        omega
      have hprod : floorOf q < 0 := mul_neg_of_neg_of_pos hneg hlen
      have hzero : readyCount q = 0 := by
        simp [readyCount, hnil]
      omega
    · have hv : ord.visit (nodeEachZone q.Nodes) = [] := by
        have := ord.perm (nodeEachZone q.Nodes)
        rw [hnil] at this ⊢
        exact List.Perm.eq_nil this
      simp [NodePool.GetMaxAgeNodeWithBalance, hv, maxNumZone, maxAgeLoop]

/-- The pool `pa` of the first case of `TestPurgeInGroup` (`MinNodeCount` 0, one
ready node): the target is `nodeA`.  The pool `negativePa` (`MinNodeCount` -1,
one zone, no node): the group is healthy, `IsMinimumNodes` is false, and
`purgeInGroup` calls `Purge` and `DeleteInstance` on a nil node and returns a
nil node with `ok = true`. -/
theorem balance_target_not_nil_witness :
    (0 ≤ enoughPa.MinNodeCount ∧ FitsInt (floorOf enoughPa) ∧
      enoughPa.IsMinimumNodes = false) ∧
    (∃ n ∈ enoughPa.Nodes, enoughPa.GetMaxAgeNodeWithBalance MapOrder.forward = (some n, true)) ∧
    (negativePa.MinNodeCount < 0 ∧ negativePa.Nodes = [] ∧ negativePa.AllGreen = true ∧
      negativePa.IsMinimumNodes = false) ∧
    (stubThyella [negativePa] [nodeA]).purgeInGroup
        MapOrder.forward "cluster" ["pa"] [nodeA] testIndex ()
      = ⟨Outcome.ret none true none,
          [Call.GetNodePool "cluster" "pa" [nodeA], Call.Purge none,
            Call.DeleteInstance "cluster" none], ()⟩ :=
  ⟨⟨by decide, ⟨by decide, by decide⟩, by decide⟩,
    (balance_target_not_nil enoughPa MapOrder.forward (by decide) ⟨by decide, by decide⟩
      (by decide)).1,
    ⟨by decide, by decide, by decide, by decide⟩, rfl⟩

/-- The claim C15 fails on the code.  The pool `overflowPa` has
`MinNodeCount = 2^62 >= 0`, two zones and no node.  The product of line 89 of
`types.go` wraps around to `-2^63`, so `IsMinimumNodes` is false;
`GetMaxAgeNodeWithBalance` returns `(nil, false)`, and `purgeInGroup`, in which
that pool is the non-preemptible pool of a healthy group, passes a nil target
to `K8sClient.Purge`. -/
theorem overflow_target_nil :
    0 ≤ overflowPa.MinNodeCount ∧
    overflowPa.AllGreen = true ∧
    overflowPa.IsMinimumNodes = false ∧
    overflowPa.GetMaxAgeNodeWithBalance MapOrder.forward = (none, false) ∧
    firstPool false [overflowPa] = some overflowPa ∧
    ((stubThyella [overflowPa] [nodeA]).purgeInGroup
        MapOrder.forward "cluster" ["pa"] [nodeA] testIndex ()).out
      = Outcome.ret none true none ∧
    ((stubThyella [overflowPa] [nodeA]).purgeInGroup
        MapOrder.forward "cluster" ["pa"] [nodeA] testIndex ()).calls
      = [Call.GetNodePool "cluster" "pa" [nodeA], Call.Purge none,
          Call.DeleteInstance "cluster" none] := by
  decide

end ThyellaModel
